import Mathlib

/-!
Shallow embedding of the concurrent TMDB metadata-fetching client of
export-lb-logs (src/tmdb/api.py, class asyncTMDB), together with proofs about
the behaviour its specification describes: outcome classification and retry
in `_fetch_data` / `retry_error_callback`, batching and deduplication in
`_batch_fetch` / `_fetch_by_id`, and the day loop of `fetch_changed_ids`.

The remote system is modelled by oracles: a function from request identity
(and physical attempt number, since retries re-issue the request) to the
response observed by the client.  Calendar dates are modelled as integer day
numbers (`cur_date - timedelta(days=1)` becomes `cur - 1`).
-/

set_option autoImplicit false

namespace ExportLb

/-- A metadata record returned by a by-id endpoint: its `id` field plus an
opaque payload standing in for every other field (the client only ever reads
`data['id']`, at the dedup step). -/
structure Record where
  rid : Nat
  payload : Nat
  deriving DecidableEq, Repr

/-- One entry of a changes page's `results` list: the client reads its `id`
and (for movie changes) its `adult` flag. -/
structure Entry where
  eid : Nat
  adult : Bool
  deriving DecidableEq, Repr

/-- One page returned by a paginated endpoint: the `total_pages` field
(`none` models a JSON body in which the key is missing, which
`dict.get('total_pages')` turns into Python `None`) and the `results` list. -/
structure Page where
  totalPages : Option Nat
  results : List Entry
  deriving DecidableEq, Repr

/-- What one physical HTTP attempt looks like to `asyncTMDB._fetch_data`
(src/tmdb/api.py lines 348-376): a 2xx JSON body, an
`aiohttp.ClientResponseError` carrying a status code, an
`asyncio.TimeoutError`, or some other `aiohttp.ClientError` (connection
failure). -/
inductive Resp (β : Type) where
  | ok (body : β)
  | httpError (status : Nat)
  | timeout
  | netError
  deriving DecidableEq, Repr

/-- What `asyncTMDB._fetch_data` hands back when it does not raise: the parsed
JSON dict, an int marker (the id for a 404 on a by-id path, 0 for other
non-fatal failures), or Python `None` (the implicit return). -/
inductive Outcome (β : Type) where
  | body (b : β)
  | intRet (n : Nat)
  | noneRet
  deriving DecidableEq, Repr

/-- A logging call made by the client: `logger.warning` or `logger.error`. -/
inductive LogEvent where
  | warn
  | errorLog
  deriving DecidableEq, Repr

/-- How one pass through the body of `_fetch_data` ends: a return, a
re-raised 401/403 `ClientResponseError`, or a raised `RetryableError`
(whose optional status is `None` for timeouts). -/
inductive AttemptStep (β : Type) where
  | ret (o : Outcome β)
  | authRaise (status : Nat)
  | retryable (status : Option Nat)
  deriving DecidableEq, Repr

/-- The status codes `_fetch_data` converts into `RetryableError`
(src/tmdb/api.py line 358). -/
def retryStatuses : List Nat := [429, 500, 502, 503, 504]

/-- One pass through the try/except body of `asyncTMDB._fetch_data`
(src/tmdb/api.py lines 348-376), classifying a single physical attempt and
recording the logging calls it makes.  `pid` is `int(path.split('/')[-1])`:
the by-id callers build paths of the form f'resource/id', so the numeric last
segment is the requested id, and we carry it alongside the path. -/
def classify {β : Type} (r : Resp β) (pid : Nat) (byId : Bool) :
    AttemptStep β × List LogEvent :=
  match r with
  | Resp.ok b => (AttemptStep.ret (Outcome.body b), [])
  | Resp.httpError s =>
    if s = 401 ∨ s = 403 then
      (AttemptStep.authRaise s, [LogEvent.errorLog])
    else if s ∈ retryStatuses then
      (AttemptStep.retryable (some s), [])
    else if s = 404 then
      (AttemptStep.ret (if byId then Outcome.intRet pid else Outcome.noneRet), [])
    else
      (AttemptStep.ret (if byId then Outcome.intRet 0 else Outcome.noneRet),
        [LogEvent.warn])
  | Resp.timeout => (AttemptStep.retryable none, [])
  | Resp.netError =>
    (AttemptStep.ret (if byId then Outcome.intRet 0 else Outcome.noneRet),
      [LogEvent.warn])

/-- `retry_error_callback` (src/tmdb/api.py lines 20-37): runs once when the
retry attempts are exhausted; it logs one warning (with the attempt count) and
its return value is what tenacity returns in place of the raised error.
By-id paths are nonempty f'resource/id' strings, so `if is_by_id and path`
reduces to `byId`; a non-by-id exhaustion falls through and returns `None`. -/
def callbackResult (β : Type) (status : Option Nat) (pid : Nat) (byId : Bool) :
    Outcome β :=
  if byId then
    if status = some 404 then Outcome.intRet pid else Outcome.intRet 0
  else Outcome.noneRet

/-- The observable result of one logical request: what `_fetch_data` returned
or raised (`Except.error` carries the 401/403 status), the log events it
emitted, and how many physical attempts were made. -/
structure FetchRes (β : Type) where
  result : Except Nat (Outcome β)
  log : List LogEvent
  attemptCount : Nat
  deriving Repr

deriving instance DecidableEq for Except

/-- The tenacity retry loop wrapped around `_fetch_data` (src/tmdb/api.py
lines 337-342): currently on attempt number `k` with `fuel` attempts still
allowed; `resp k` is the remote's answer to the k-th physical attempt.
`stop_after_attempt(5)` means the loop starts with fuel 5, and when a
retryable error exhausts the fuel `retry_error_callback` supplies the result
(logging its one warning). -/
def fetchDataAux {β : Type} (resp : Nat → Resp β) (pid : Nat) (byId : Bool) :
    Nat → Nat → FetchRes β
  | _, 0 => ⟨Except.ok Outcome.noneRet, [], 0⟩
  | k, fuel + 1 =>
    match classify (resp k) pid byId with
    | (AttemptStep.ret o, lg) => ⟨Except.ok o, lg, 1⟩
    | (AttemptStep.authRaise s, lg) => ⟨Except.error s, lg, 1⟩
    | (AttemptStep.retryable s, lg) =>
      if fuel = 0 then
        ⟨Except.ok (callbackResult β s pid byId), lg ++ [LogEvent.warn], 1⟩
      else
        let r := fetchDataAux resp pid byId (k + 1) fuel
        ⟨r.result, lg ++ r.log, r.attemptCount + 1⟩

/-- One logical request: `asyncTMDB._fetch_data` together with its `@retry`
decorator (retry on `RetryableError`, `stop_after_attempt(5)`,
`retry_error_callback`). -/
def fetchData {β : Type} (resp : Nat → Resp β) (pid : Nat) (byId : Bool) :
    FetchRes β :=
  fetchDataAux resp pid byId 1 5

/-- A request path.  The code inspects a path only to build the URL and, on
by-id paths f'resource/id', to recover the id as
`int(path.split('/')[-1])`; we model a path as the resource string paired
with that numeric last segment. -/
abbrev ReqPath := String × Nat

/-- The partition loop of `asyncTMDB._batch_fetch` (src/tmdb/api.py lines
396-400): dict results go to `results`, everything else (int markers, Python
`None`) goes to `batch_not_fetched`, in gather's task order. -/
def partitionOutcomes {β : Type} : List (Outcome β) → List β × List (Option Nat)
  | [] => ([], [])
  | Outcome.body b :: rest =>
    let p := partitionOutcomes rest
    (b :: p.1, p.2)
  | Outcome.intRet n :: rest =>
    let p := partitionOutcomes rest
    (p.1, some n :: p.2)
  | Outcome.noneRet :: rest =>
    let p := partitionOutcomes rest
    (p.1, none :: p.2)

/-- The record a non-raising `_fetch_data` outcome contributes to `results`
(the isinstance(result, dict) test of `_batch_fetch`). -/
def bodyOf {β : Type} : Outcome β → Option β
  | Outcome.body b => some b
  | _ => none

/-- The entry a non-raising `_fetch_data` outcome contributes to
`batch_not_fetched`: the int marker, or Python `None` for a non-by-id
failure. -/
def nfOf {β : Type} : Outcome β → Option (Option Nat)
  | Outcome.body _ => none
  | Outcome.intRet n => some (some n)
  | Outcome.noneRet => some none

/-- The outcome inside a non-raising request result (proof-side accessor). -/
def okValue {β : Type} : Except Nat (Outcome β) → Outcome β
  | Except.ok o => o
  | Except.error _ => Outcome.noneRet

/-- Whether a request result did not raise (proof-side accessor). -/
def okB {α : Type} : Except Nat α → Bool
  | Except.ok _ => true
  | Except.error _ => false

/-- An honest remote answer for requested id `i`: if the request produced a
record, that record's `id` field is `i`.  (TMDB's per-entity endpoints return
the entity that was addressed; an arbitrary oracle need not.) -/
def honestB (e : Except Nat (Outcome Record)) (i : Nat) : Bool :=
  match e with
  | Except.ok (Outcome.body r) => r.rid = i
  | _ => true

/-- A by-id request result that resolved cleanly for requested id `i`: either
an honest record for `i`, or the 404 marker carrying `i` itself.  (This
excludes the fetch-failed paths, which mark the sentinel 0 instead.) -/
def okOr404 (e : Except Nat (Outcome Record)) (i : Nat) : Bool :=
  match e with
  | Except.ok (Outcome.body r) => r.rid = i
  | Except.ok (Outcome.intRet n) => n = i
  | _ => false

/-- The result of the logical request the client issues for path `p`:
`_fetch_data` under the oracle's responses, with `pid = p.2`, the numeric
last path segment. -/
def resultOf {β : Type} (oracle : ReqPath → Nat → Resp β) (byId : Bool)
    (p : ReqPath) : Except Nat (Outcome β) :=
  (fetchData (oracle p) p.2 byId).result

/-- The outcome of a non-raising logical request (proof-side accessor). -/
def outcomeOf {β : Type} (oracle : ReqPath → Nat → Resp β) (byId : Bool)
    (p : ReqPath) : Outcome β :=
  okValue (resultOf oracle byId p)

/-- `asyncio.gather` over the per-request results of one wave: if any request
raised (an authorization error is the only exception `_fetch_data` lets
escape), the gather raises it and no result list is produced; otherwise the
results come back in task order. -/
def gatherExcept {β : Type} : List (Except Nat (Outcome β)) →
    Except Nat (List (Outcome β))
  | [] => Except.ok []
  | e :: es =>
    match e with
    | Except.error s => Except.error s
    | Except.ok o =>
      match gatherExcept es with
      | Except.error s => Except.error s
      | Except.ok os => Except.ok (o :: os)

/-- `asyncTMDB._batch_fetch` on one batch of by-id paths: one logical request
per path, issued by `asyncio.gather`; a raised authorization error propagates
out of the gather, in which case no partition is produced. -/
def batchFetch {β : Type} (oracle : ReqPath → Nat → Resp β) (byId : Bool)
    (batch : List ReqPath) : Except Nat (List β × List (Option Nat)) :=
  (gatherExcept (batch.map (resultOf oracle byId))).map partitionOutcomes

/-- The slicing loop `for i in range(0, len(paths), batch_size)` of
`asyncTMDB._fetch_by_id` (line 421): consecutive slices of length at most
`B`.  (Python raises on a zero step; every claim assumes `B > 0`, and we
return no chunks for `B = 0`.) -/
def chunkListAux {α : Type} (B : Nat) : Nat → List α → List (List α)
  | 0, _ => []
  | fuel + 1, l =>
    if l.length = 0 ∨ B = 0 then [] else l.take B :: chunkListAux B fuel (l.drop B)

/-- The slices themselves; `l.length` is always enough fuel, since every
round with `B > 0` drops at least one element. -/
def chunkList {α : Type} (B : Nat) (l : List α) : List (List α) :=
  chunkListAux B l.length l

/-- The batch loop of `asyncTMDB._fetch_by_id` (lines 420-425): process the
chunks strictly in order, extending `all_results` and `not_fetched`; also
record the requests actually issued (one logical request per path of every
batch that gets scheduled).  A raised authorization error aborts the loop
after its batch's requests were issued, and no further batch is scheduled. -/
def fetchByIdGo {β : Type} (oracle : ReqPath → Nat → Resp β) :
    List (List ReqPath) → List β → List (Option Nat) → List ReqPath →
    Except Nat (List β × List (Option Nat)) × List ReqPath
  | [], acc, nf, log => (Except.ok (acc, nf), log)
  | c :: cs, acc, nf, log =>
    match batchFetch oracle true c with
    | Except.error s => (Except.error s, log ++ c)
    | Except.ok (rs, bnf) => fetchByIdGo oracle cs (acc ++ rs) (nf ++ bnf) (log ++ c)

/-- `asyncTMDB._fetch_by_id` just before its final dedup step: `all_results`
and `not_fetched` as accumulated across all batches, plus the request log. -/
def fetchByIdRaw {β : Type} (oracle : ReqPath → Nat → Resp β) (B : Nat)
    (paths : List ReqPath) :
    Except Nat (List β × List (Option Nat)) × List ReqPath :=
  fetchByIdGo oracle (chunkList B paths) [] [] []

/-- One step of building the Python dict
`{data['id']: data for data in all_results}`: a repeated key keeps its first
position but takes the newer value. -/
def insertLast (m : List (Nat × Record)) (r : Record) : List (Nat × Record) :=
  if m.any (fun kv => kv.1 = r.rid) then
    m.map (fun kv => if kv.1 = r.rid then (kv.1, r) else kv)
  else
    m ++ [(r.rid, r)]

/-- `list({data['id']: data for data in all_results}.values())`
(src/tmdb/api.py line 428): at most one record per id, keys in
first-occurrence order, and for a duplicated id the last value wins. -/
def dedupById (rs : List Record) : List Record :=
  (rs.foldl insertLast []).map Prod.snd

/-- `asyncTMDB._fetch_by_id`: batch the paths, fetch them batch by batch, and
deduplicate the successful records by their `id` field. -/
def fetchById (oracle : ReqPath → Nat → Resp Record) (B : Nat)
    (paths : List ReqPath) :
    Except Nat (List Record × List (Option Nat)) × List ReqPath :=
  let r := fetchByIdRaw oracle B paths
  (r.1.map (fun pr => (dedupById pr.1, pr.2)), r.2)

/-- `asyncTMDB.fetch_movies_by_id`: build the paths f'movie/movie_id' and run
the bulk by-id fetch. -/
def fetchMoviesById (oracle : ReqPath → Nat → Resp Record) (movieIds : List Nat)
    (B : Nat) :
    Except Nat (List Record × List (Option Nat)) × List ReqPath :=
  fetchById oracle B (movieIds.map (fun i => ("movie", i)))

/-- `asyncTMDB._fetch_pages` as used by the changes endpoint: one logical
request per page in `range(first_page, last_page + 1)` at the cursor date
`d`; results that are not dicts are dropped from the page list, a raised
authorization error propagates.  Also returns the `(date, page)` requests
issued.  `oracle d p k` answers the k-th physical attempt for page `p` of
date `d`. -/
def fetchPagesM (oracle : Int → Nat → Nat → Resp Page) (d : Int)
    (firstPage lastPage : Nat) : Except Nat (List Page) × List (Int × Nat) :=
  let ps := List.range' firstPage (lastPage + 1 - firstPage)
  ((gatherExcept (ps.map (fun p => (fetchData (oracle d p) 0 false).result))).map
      (fun outs => outs.filterMap bodyOf),
    ps.map (fun p => (d, p)))

/-- The identifiers one day's pages contribute (src/tmdb/api.py lines
774-777): movie changes filter out entries flagged adult, person changes do
not; `set.update` makes the accumulator a set. -/
def extractIds (isMovie : Bool) (pages : List Page) : Finset Nat :=
  if isMovie then
    (pages.flatMap (fun pg => (pg.results.filter (fun m => !m.adult)).map Entry.eid)).toFinset
  else
    (pages.flatMap (fun pg => pg.results.map Entry.eid)).toFinset

/-- How a run of `fetch_changed_ids` can fail: the `ValueError` for a bad
`ids_type`, the `IndexError` raised by `[0]` when the discovery fetch yields
no page dict at all, or a propagated authorization error. -/
inductive DiffErr where
  | invalidType
  | indexErr
  | auth (status : Nat)
  deriving DecidableEq, Repr

/-- One iteration of the day loop of `asyncTMDB.fetch_changed_ids`
(src/tmdb/api.py lines 754-779) at cursor date `cur`: fetch page 1 to
discover `total_pages`; if the returned page list is empty the `[0]` index
raises `IndexError`; if the page dict lacks the `total_pages` key, log a
warning and `continue` — modelled as `ok none` (the day contributes nothing);
otherwise page through `min(total_pages, 500)` pages and return the day's id
set.  The second component is the list of requests issued. -/
def dayStep (oracle : Int → Nat → Nat → Resp Page) (isMovie : Bool)
    (cur : Int) : Except DiffErr (Option (Finset Nat)) × List (Int × Nat) :=
  match fetchPagesM oracle cur 1 1 with
  | (Except.error s, l1) => (Except.error (DiffErr.auth s), l1)
  | (Except.ok pages, l1) =>
    match pages.head? with
    | none => (Except.error DiffErr.indexErr, l1)
    | some fp =>
      match fp.totalPages with
      | none => (Except.ok none, l1)
      | some tp =>
        match fetchPagesM oracle cur 1 (min tp 500) with
        | (Except.error s, l2) => (Except.error (DiffErr.auth s), l1 ++ l2)
        | (Except.ok pages2, l2) =>
          (Except.ok (some (extractIds isMovie pages2)), l1 ++ l2)

/-- The day loop itself, one `dayStep` per remaining day.  On the
missing-`total_pages` path the `continue` skips the
`cur_date -= timedelta(days=1)` at the end of the loop body, so the cursor is
NOT decremented there; on a successful day the ids are folded in and the
cursor moves back one day.  Returns the final cursor and id set, plus the
requests issued in order. -/
def loopSteps (oracle : Int → Nat → Nat → Resp Page) (isMovie : Bool) :
    Nat → Int → Finset Nat → Except DiffErr (Int × Finset Nat) × List (Int × Nat)
  | 0, cur, ids => (Except.ok (cur, ids), [])
  | n + 1, cur, ids =>
    match dayStep oracle isMovie cur with
    | (Except.error e, l) => (Except.error e, l)
    | (Except.ok none, l) =>
      let r := loopSteps oracle isMovie n cur ids
      (r.1, l ++ r.2)
    | (Except.ok (some newIds), l) =>
      let r := loopSteps oracle isMovie n (cur - 1) (ids ∪ newIds)
      (r.1, l ++ r.2)

/-- `asyncTMDB.fetch_changed_ids`: validate `ids_type` before any request is
issued, run the day loop for `days` iterations from the start date
(`datetime.now()`, modelled as an integer day number), and return the id set
together with `earliest_date = final cursor + 1 day`. -/
def fetchChangedIds (oracle : Int → Nat → Nat → Resp Page) (idsType : String)
    (days : Nat) (startDate : Int) :
    Except DiffErr (Finset Nat × Int) × List (Int × Nat) :=
  if idsType = "movie" ∨ idsType = "person" then
    let r := loopSteps oracle (idsType = "movie") days startDate ∅
    (r.1.map (fun p => (p.2, p.1 + 1)), r.2)
  else
    (Except.error DiffErr.invalidType, [])

/-- The page-1 discovery call of the change-diff engine succeeds for date
`d` with a page dict carrying a usable `total_pages` count.  This says
nothing about the deeper data pages of the day: those may still fail
non-fatally (the pager silently drops them from the result). -/
def discoveryUsable (oracle : Int → Nat → Nat → Resp Page) (d : Int) : Prop :=
  ∃ pg : Page,
    (fetchData (oracle d 1) 0 false).result = Except.ok (Outcome.body pg) ∧
      pg.totalPages.isSome

/-- A response that `_fetch_data` converts into `RetryableError`. -/
def retryableResp {β : Type} (r : Resp β) : Prop :=
  r = Resp.timeout ∨ ∃ t, t ∈ retryStatuses ∧ r = Resp.httpError t

/-! ### Transport-layer lemmas -/

theorem classify_auth {β : Type} (s pid : Nat) (byId : Bool)
    (h : s = 401 ∨ s = 403) :
    classify (β := β) (Resp.httpError s) pid byId =
      (AttemptStep.authRaise s, [LogEvent.errorLog]) := by
  simp only [classify]
  rw [if_pos h]

theorem classify_retry {β : Type} (s pid : Nat) (byId : Bool)
    (h : s ∈ retryStatuses) :
    classify (β := β) (Resp.httpError s) pid byId =
      (AttemptStep.retryable (some s), []) := by
  have hna : ¬(s = 401 ∨ s = 403) := by
    simp only [retryStatuses, List.mem_cons, List.not_mem_nil, or_false] at h
    rcases h with rfl | rfl | rfl | rfl | rfl <;> omega
  simp only [classify]
  rw [if_neg hna, if_pos h]

theorem classify_404 {β : Type} (pid : Nat) (byId : Bool) :
    classify (β := β) (Resp.httpError 404) pid byId =
      (AttemptStep.ret (if byId then Outcome.intRet pid else Outcome.noneRet),
        []) := by
  simp [classify, retryStatuses]

theorem classify_other4xx {β : Type} (s pid : Nat) (byId : Bool)
    (h4 : 400 ≤ s) (h5 : s < 500) (hn1 : s ≠ 401) (hn3 : s ≠ 403)
    (hn4 : s ≠ 404) (hn9 : s ≠ 429) :
    classify (β := β) (Resp.httpError s) pid byId =
      (AttemptStep.ret (if byId then Outcome.intRet 0 else Outcome.noneRet),
        [LogEvent.warn]) := by
  have hna : ¬(s = 401 ∨ s = 403) := by omega
  have hnr : s ∉ retryStatuses := by
    simp only [retryStatuses, List.mem_cons, List.not_mem_nil, or_false]
    omega
  simp only [classify]
  rw [if_neg hna, if_neg hnr, if_neg hn4]

/-- The retry loop never makes more physical attempts than it has fuel. -/
theorem fetchDataAux_attempts_le {β : Type} (resp : Nat → Resp β) (pid : Nat)
    (byId : Bool) (k fuel : Nat) :
    (fetchDataAux resp pid byId k fuel).attemptCount ≤ fuel := by
  induction fuel generalizing k with
  | zero => simp [fetchDataAux]
  | succ n ih =>
    rcases hc : classify (resp k) pid byId with ⟨step, lg⟩
    cases step with
    | ret o => simp [fetchDataAux, hc]
    | authRaise s => simp [fetchDataAux, hc]
    | retryable s =>
      by_cases hn : n = 0
      · subst hn
        simp [fetchDataAux, hc]
      · simpa [fetchDataAux, hc, hn] using ih (k + 1)

/-- The `stop_after_attempt(5)` bound: no logical request makes more than 5
physical attempts. -/
theorem fetchData_attempts_le {β : Type} (resp : Nat → Resp β) (pid : Nat)
    (byId : Bool) : (fetchData resp pid byId).attemptCount ≤ 5 :=
  fetchDataAux_attempts_le resp pid byId 1 5

/-- One-step unfolding of the retry loop: a returning attempt. -/
theorem fetchDataAux_step_ret {β : Type} (resp : Nat → Resp β) (pid : Nat)
    (byId : Bool) (k n : Nat) (o : Outcome β) (lg : List LogEvent)
    (hc : classify (resp k) pid byId = (AttemptStep.ret o, lg)) :
    fetchDataAux resp pid byId k (n + 1) = ⟨Except.ok o, lg, 1⟩ := by
  unfold fetchDataAux
  rw [hc]

/-- One-step unfolding of the retry loop: an attempt raising 401/403. -/
theorem fetchDataAux_step_auth {β : Type} (resp : Nat → Resp β) (pid : Nat)
    (byId : Bool) (k n s : Nat) (lg : List LogEvent)
    (hc : classify (resp k) pid byId = (AttemptStep.authRaise s, lg)) :
    fetchDataAux resp pid byId k (n + 1) = ⟨Except.error s, lg, 1⟩ := by
  unfold fetchDataAux
  rw [hc]

/-- One-step unfolding of the retry loop: a retryable failure with fuel left
moves on to the next physical attempt. -/
theorem fetchDataAux_step_retry {β : Type} (resp : Nat → Resp β) (pid : Nat)
    (byId : Bool) (k m : Nat) (σ : Option Nat) (lg : List LogEvent)
    (hc : classify (resp k) pid byId = (AttemptStep.retryable σ, lg)) :
    fetchDataAux resp pid byId k (m + 2) =
      ⟨(fetchDataAux resp pid byId (k + 1) (m + 1)).result,
        lg ++ (fetchDataAux resp pid byId (k + 1) (m + 1)).log,
        (fetchDataAux resp pid byId (k + 1) (m + 1)).attemptCount + 1⟩ := by
  conv_lhs => unfold fetchDataAux
  rw [hc]
  rfl

/-- One-step unfolding of the retry loop: a retryable failure on the last
allowed attempt hands over to `retry_error_callback`. -/
theorem fetchDataAux_step_last {β : Type} (resp : Nat → Resp β) (pid : Nat)
    (byId : Bool) (k : Nat) (σ : Option Nat) (lg : List LogEvent)
    (hc : classify (resp k) pid byId = (AttemptStep.retryable σ, lg)) :
    fetchDataAux resp pid byId k 1 =
      ⟨Except.ok (callbackResult β σ pid byId), lg ++ [LogEvent.warn], 1⟩ := by
  show fetchDataAux resp pid byId k (0 + 1) = _
  unfold fetchDataAux
  rw [hc]
  rfl

/-- A first-attempt 404 on a by-id path: `_fetch_data` returns the id marker
at once, raising nothing and logging nothing. -/
theorem fetchData_404 {β : Type} (resp : Nat → Resp β) (pid : Nat)
    (h : resp 1 = Resp.httpError 404) :
    fetchData resp pid true = ⟨Except.ok (Outcome.intRet pid), [], 1⟩ := by
  have hc : classify (resp 1) pid true =
      (AttemptStep.ret (Outcome.intRet pid), []) := by
    rw [h, classify_404]
    rfl
  show fetchDataAux resp pid true 1 (4 + 1) = _
  rw [fetchDataAux_step_ret resp pid true 1 4 _ _ hc]

/-- A first-attempt auth failure (401/403) raises out of `_fetch_data`. -/
theorem fetchData_auth {β : Type} (resp : Nat → Resp β) (pid s : Nat)
    (byId : Bool) (h : resp 1 = Resp.httpError s) (hs : s = 401 ∨ s = 403) :
    fetchData resp pid byId =
      ⟨Except.error s, [LogEvent.errorLog], 1⟩ := by
  have hc : classify (resp 1) pid byId =
      (AttemptStep.authRaise s, [LogEvent.errorLog]) := by
    rw [h, classify_auth s pid byId hs]
  show fetchDataAux resp pid byId 1 (4 + 1) = _
  rw [fetchDataAux_step_auth resp pid byId 1 4 s _ hc]

/-- A first-attempt 4xx other than 401/403/404/429 on a by-id path: the
sentinel 0 is returned, with one warning. -/
theorem fetchData_other4xx {β : Type} (resp : Nat → Resp β) (pid s : Nat)
    (h : resp 1 = Resp.httpError s) (h4 : 400 ≤ s) (h5 : s < 500)
    (hn1 : s ≠ 401) (hn3 : s ≠ 403) (hn4 : s ≠ 404) (hn9 : s ≠ 429) :
    fetchData resp pid true = ⟨Except.ok (Outcome.intRet 0), [LogEvent.warn], 1⟩ := by
  have hc : classify (resp 1) pid true =
      (AttemptStep.ret (Outcome.intRet 0), [LogEvent.warn]) := by
    rw [h, classify_other4xx s pid true h4 h5 hn1 hn3 hn4 hn9]
    rfl
  show fetchDataAux resp pid true 1 (4 + 1) = _
  rw [fetchDataAux_step_ret resp pid true 1 4 _ _ hc]

theorem classify_of_retryable {β : Type} (r : Resp β) (pid : Nat) (byId : Bool)
    (h : retryableResp r) :
    ∃ σ, classify r pid byId = (AttemptStep.retryable σ, []) ∧ σ ≠ some 404 := by
  rcases h with h | ⟨t, ht, h⟩
  · subst h
    exact ⟨none, rfl, by simp⟩
  · subst h
    refine ⟨some t, classify_retry t pid byId ht, ?_⟩
    simp only [retryStatuses, List.mem_cons, List.not_mem_nil, or_false] at ht
    rcases ht with rfl | rfl | rfl | rfl | rfl <;> simp

/-- Exhausting the retries on a by-id request: no retryable status is 404, so
`retry_error_callback` returns the sentinel 0, and its single warning is the
only log line. -/
theorem fetchDataAux_all_retryable {β : Type} (resp : Nat → Resp β)
    (pid k n : Nat) (h : ∀ j, retryableResp (resp j)) :
    fetchDataAux resp pid true k (n + 1) =
      ⟨Except.ok (Outcome.intRet 0), [LogEvent.warn], n + 1⟩ := by
  induction n generalizing k with
  | zero =>
    obtain ⟨σ, hc, hσ⟩ := classify_of_retryable (resp k) pid true (h k)
    rw [fetchDataAux_step_last resp pid true k σ [] hc]
    simp [callbackResult, hσ]
  | succ n ih =>
    obtain ⟨σ, hc, hσ⟩ := classify_of_retryable (resp k) pid true (h k)
    rw [fetchDataAux_step_retry resp pid true k n σ [] hc]
    rw [ih (k + 1)]
    rfl

theorem fetchData_exhausted {β : Type} (resp : Nat → Resp β) (pid : Nat)
    (h : ∀ j, retryableResp (resp j)) :
    fetchData resp pid true = ⟨Except.ok (Outcome.intRet 0), [LogEvent.warn], 5⟩ :=
  fetchDataAux_all_retryable resp pid 1 4 h

/-! ### Claim theorems: change-diff engine argument validation and day loop -/

/-- C9: a call to fetch_changed_ids with an entity type other than "movie" or
"person" raises the invalid-argument ValueError before any network request is
issued: for every oracle the run produces the error, and the request log is
empty. -/
theorem c9_invalid_type_rejected (oracle : Int → Nat → Nat → Resp Page)
    (idsType : String) (days : Nat) (startDate : Int)
    (h1 : idsType ≠ "movie") (h2 : idsType ≠ "person") :
    fetchChangedIds oracle idsType days startDate =
      (Except.error DiffErr.invalidType, []) := by
  unfold fetchChangedIds
  rw [if_neg (by simp [h1, h2])]

theorem c9_witness :
    ("show" : String) ≠ "movie" ∧ ("show" : String) ≠ "person" ∧
      fetchChangedIds (fun _ _ _ => Resp.timeout) "show" 1 0 =
        (Except.error DiffErr.invalidType, []) :=
  ⟨by decide, by decide,
    c9_invalid_type_rejected (fun _ _ _ => Resp.timeout) "show" 1 0
      (by decide) (by decide)⟩

/-- C10: fetch_changed_ids with a valid entity type and days = 0 runs zero
iterations of the day loop: no request is issued, the returned id set is
empty, and the returned earliest date is the start date plus one day — a date
in the future, not a covered one. -/
theorem c10_zero_days (oracle : Int → Nat → Nat → Resp Page)
    (idsType : String) (startDate : Int)
    (h : idsType = "movie" ∨ idsType = "person") :
    fetchChangedIds oracle idsType 0 startDate =
      (Except.ok (∅, startDate + 1), []) := by
  unfold fetchChangedIds
  rw [if_pos h]
  rfl

theorem c10_witness :
    (("movie" : String) = "movie" ∨ ("movie" : String) = "person") ∧
      fetchChangedIds (fun _ _ _ => Resp.timeout) "movie" 0 7 =
        (Except.ok (∅, 8), []) :=
  ⟨Or.inl rfl, c10_zero_days (fun _ _ _ => Resp.timeout) "movie" 7 (Or.inl rfl)⟩

/-- C1 (code bug): run fetch_changed_ids("movie", days=2) against a remote
whose changes endpoint always answers with a page dict lacking the
'total_pages' key.  Each iteration takes the warn-and-`continue` path, and
because `continue` skips the `cur_date -= timedelta(days=1)` at the end of
the loop body, the cursor is never moved back: the second iteration
re-queries the same date (the request log holds (100, 1) twice rather than
(100, 1), (99, 1)) and the returned earliest date is startDate + 1 instead of
startDate - 1.  A second conjunct shows the outright-failure case: when the
page-1 discovery request itself fails (here with 500 on every attempt), the
`[0]` subscript on the empty page list raises IndexError and the whole run
aborts, instead of skipping the day. -/
theorem c1_cursor_not_decremented :
    fetchChangedIds (fun _ _ _ => Resp.ok ⟨none, []⟩) "movie" 2 100 =
      (Except.ok (∅, 101), [(100, 1), (100, 1)]) ∧
    fetchChangedIds (fun _ _ _ => Resp.httpError 500) "movie" 2 100 =
      (Except.error DiffErr.indexErr, [(100, 1)]) := by
  constructor
  · rfl
  · rfl

/-! ### Claim theorems: transport layer (C2, C4) -/

/-- C2 counterexample: the by-id fetch for path 'movie/42' answered with
status 400 — a 4xx other than 401/403/404/429 — ends with the sentinel 0, not
the identifier 42, as the entry in the not-fetched collection; 42 is recorded
nowhere. -/
theorem c2_counterexample :
    fetchMoviesById (fun _ _ => Resp.httpError 400) [42] 100 =
      (Except.ok ([], [some 0]), [("movie", 42)]) ∧
    some (42 : Nat) ∉ [some (0 : Nat)] := by
  refine ⟨by decide, by decide⟩

/-- C2 (amended): a by-id fetch that receives a 4xx other than
401/403/404/429, or that exhausts its retries on retryable errors, records
the sentinel 0 — not the original identifier — as its not-fetched marker.
(Only the 404 path returns the identifier itself.) -/
theorem c2_amended_sentinel (resp eresp : Nat → Resp Record) (pid epid s : Nat)
    (h : resp 1 = Resp.httpError s) (h4 : 400 ≤ s) (h5 : s < 500)
    (hn1 : s ≠ 401) (hn3 : s ≠ 403) (hn4 : s ≠ 404) (hn9 : s ≠ 429)
    (he : ∀ j, retryableResp (eresp j)) :
    (fetchData resp pid true).result = Except.ok (Outcome.intRet 0) ∧
    (fetchData eresp epid true).result = Except.ok (Outcome.intRet 0) := by
  constructor
  · rw [fetchData_other4xx resp pid s h h4 h5 hn1 hn3 hn4 hn9]
  · rw [fetchData_exhausted eresp epid he]

theorem c2_witness :
    (400 : Nat) ≤ 400 ∧
    (fetchData (β := Record) (fun _ => Resp.httpError 400) 42 true).result =
      Except.ok (Outcome.intRet 0) ∧
    (fetchData (β := Record) (fun _ => Resp.httpError 503) 42 true).result =
      Except.ok (Outcome.intRet 0) :=
  ⟨le_refl 400,
    c2_amended_sentinel (fun _ => Resp.httpError 400) (fun _ => Resp.httpError 503)
      42 42 400 rfl (by decide) (by decide) (by decide) (by decide) (by decide)
      (by decide) (fun _ => Or.inr ⟨503, by decide, rfl⟩)⟩

/-- C4 counterexample: a logical request whose first three physical attempts
fail with 503 and whose fourth succeeds does return the parsed body, but the
log holds zero warnings, not 3: nothing is logged when a 503 turns into
RetryableError, and the callback's warning fires only on exhaustion. -/
theorem c4_counterexample :
    (fetchData (fun k => if k ≤ 3 then Resp.httpError 503
        else Resp.ok (⟨7, 0⟩ : Record)) 7 true).result =
      Except.ok (Outcome.body ⟨7, 0⟩) ∧
    (fetchData (fun k => if k ≤ 3 then Resp.httpError 503
        else Resp.ok (⟨7, 0⟩ : Record)) 7 true).log.length ≠ 3 := by
  refine ⟨by decide, by decide⟩

/-- C4 (amended): a logical request failing three times with 503 and
succeeding on the fourth attempt returns the parsed body after exactly 4
physical attempts with an empty log (no retry warnings are recorded; a single
warning would appear only if all 5 attempts failed), and no logical request
ever makes more than 5 physical attempts. -/
theorem c4_amended (resp aresp : Nat → Resp Record) (pid apid : Nat)
    (abyId : Bool) (b : Record)
    (h1 : resp 1 = Resp.httpError 503) (h2 : resp 2 = Resp.httpError 503)
    (h3 : resp 3 = Resp.httpError 503) (h4 : resp 4 = Resp.ok b) :
    fetchData resp pid true = ⟨Except.ok (Outcome.body b), [], 4⟩ ∧
    (fetchData aresp apid abyId).attemptCount ≤ 5 := by
  refine ⟨?_, fetchData_attempts_le aresp apid abyId⟩
  have hm : (503 : Nat) ∈ retryStatuses := by decide
  have hc1 : classify (resp 1) pid true = (AttemptStep.retryable (some 503), []) := by
    rw [h1, classify_retry 503 pid true hm]
  have hc2 : classify (resp 2) pid true = (AttemptStep.retryable (some 503), []) := by
    rw [h2, classify_retry 503 pid true hm]
  have hc3 : classify (resp 3) pid true = (AttemptStep.retryable (some 503), []) := by
    rw [h3, classify_retry 503 pid true hm]
  have hc4 : classify (resp 4) pid true = (AttemptStep.ret (Outcome.body b), []) := by
    rw [h4]
    rfl
  have e4 : fetchDataAux resp pid true 4 2 = ⟨Except.ok (Outcome.body b), [], 1⟩ :=
    fetchDataAux_step_ret resp pid true 4 1 (Outcome.body b) [] hc4
  have e3 : fetchDataAux resp pid true 3 3 = ⟨Except.ok (Outcome.body b), [], 2⟩ := by
    rw [fetchDataAux_step_retry resp pid true 3 1 (some 503) [] hc3, e4]
    rfl
  have e2 : fetchDataAux resp pid true 2 4 = ⟨Except.ok (Outcome.body b), [], 3⟩ := by
    rw [fetchDataAux_step_retry resp pid true 2 2 (some 503) [] hc2, e3]
    rfl
  show fetchDataAux resp pid true 1 5 = _
  rw [fetchDataAux_step_retry resp pid true 1 3 (some 503) [] hc1, e2]
  rfl

theorem c4_witness :
    (fun k => if k ≤ 3 then Resp.httpError 503 else Resp.ok (⟨9, 5⟩ : Record)) 1 =
      Resp.httpError 503 ∧
    fetchData (fun k => if k ≤ 3 then Resp.httpError 503
        else Resp.ok (⟨9, 5⟩ : Record)) 9 true =
      ⟨Except.ok (Outcome.body ⟨9, 5⟩), [], 4⟩ ∧
    (fetchData (β := Record) (fun _ => Resp.timeout) 1 false).attemptCount ≤ 5 :=
  ⟨rfl,
    (c4_amended (fun k => if k ≤ 3 then Resp.httpError 503 else Resp.ok (⟨9, 5⟩ : Record))
      (fun _ => Resp.timeout) 9 1 false ⟨9, 5⟩ rfl rfl rfl rfl).1,
    (c4_amended (fun k => if k ≤ 3 then Resp.httpError 503 else Resp.ok (⟨9, 5⟩ : Record))
      (fun _ => Resp.timeout) 9 1 false ⟨9, 5⟩ rfl rfl rfl rfl).2⟩

/-! ### Chunking lemmas: the slicing loop of `_fetch_by_id` -/

theorem chunkListAux_nil {α : Type} (B fuel : Nat) :
    chunkListAux B fuel ([] : List α) = [] := by
  cases fuel <;> simp [chunkListAux]

theorem chunkList_nil {α : Type} (B : Nat) : chunkList B ([] : List α) = [] :=
  rfl

theorem chunkListAux_fuel {α : Type} (B : Nat) :
    ∀ (fuel : Nat) (l : List α) (fuel' : Nat), l.length ≤ fuel →
      l.length ≤ fuel' → chunkListAux B fuel l = chunkListAux B fuel' l := by
  intro fuel
  induction fuel with
  | zero =>
    intro l fuel' hf _
    have hnil : l = [] := List.eq_nil_of_length_eq_zero (by omega)
    subst hnil
    rw [chunkListAux_nil, chunkListAux_nil]
  | succ n ih =>
    intro l fuel' hf hf'
    cases l with
    | nil => rw [chunkListAux_nil, chunkListAux_nil]
    | cons a as =>
      cases fuel' with
      | zero => simp at hf'
      | succ m =>
        by_cases hB : B = 0
        · simp [chunkListAux, hB]
        · have hcond : ¬((a :: as).length = 0 ∨ B = 0) := by
            simp [hB]
          rw [chunkListAux, chunkListAux, if_neg hcond, if_neg hcond]
          have hd : ((a :: as).drop B).length ≤ n := by
            simp only [List.length_drop, List.length_cons]
            simp only [List.length_cons] at hf
            omega
          have hd' : ((a :: as).drop B).length ≤ m := by
            simp only [List.length_drop, List.length_cons]
            simp only [List.length_cons] at hf'
            omega
          rw [ih ((a :: as).drop B) m hd hd']

theorem chunkList_cons {α : Type} (B : Nat) (l : List α) (hB : 0 < B)
    (hl : l ≠ []) :
    chunkList B l = l.take B :: chunkList B (l.drop B) := by
  unfold chunkList
  cases l with
  | nil => exact absurd rfl hl
  | cons a as =>
    have hcond : ¬((a :: as).length = 0 ∨ B = 0) := by
      simp
      omega
    rw [show (a :: as).length = as.length + 1 from rfl, chunkListAux,
      if_neg hcond]
    have hd : ((a :: as).drop B).length ≤ as.length := by
      simp only [List.length_drop, List.length_cons]
      omega
    rw [chunkListAux_fuel B as.length ((a :: as).drop B)
      ((a :: as).drop B).length hd (le_refl _)]

theorem chunkList_join {α : Type} (B : Nat) (hB : 0 < B) :
    ∀ (n : Nat) (l : List α), l.length ≤ n → (chunkList B l).join = l := by
  intro n
  induction n with
  | zero =>
    intro l hl
    have hnil : l = [] := List.eq_nil_of_length_eq_zero (by omega)
    subst hnil
    rfl
  | succ n ih =>
    intro l hl
    by_cases hnil : l = []
    · subst hnil
      rfl
    · rw [chunkList_cons B l hB hnil]
      have hd : (l.drop B).length ≤ n := by
        have : 0 < l.length := List.length_pos.mpr hnil
        simp only [List.length_drop]
        omega
      show l.take B ++ (chunkList B (l.drop B)).join = l
      rw [ih (l.drop B) hd, List.take_append_drop]

theorem chunkList_length_eq {α : Type} (B : Nat) (hB : 0 < B) :
    ∀ (n : Nat) (l : List α), l.length ≤ n →
      (chunkList B l).length = (l.length + B - 1) / B := by
  intro n
  induction n with
  | zero =>
    intro l hl
    have hnil : l = [] := List.eq_nil_of_length_eq_zero (by omega)
    subst hnil
    rw [chunkList_nil]
    show 0 = (0 + B - 1) / B
    rw [Nat.div_eq_of_lt (by omega)]
  | succ n ih =>
    intro l hl
    by_cases hnil : l = []
    · subst hnil
      rw [chunkList_nil]
      show 0 = (0 + B - 1) / B
      rw [Nat.div_eq_of_lt (by omega)]
    · have hpos : 0 < l.length := List.length_pos.mpr hnil
      have hd : (l.drop B).length ≤ n := by
        simp only [List.length_drop]
        omega
      rw [chunkList_cons B l hB hnil, List.length_cons, ih (l.drop B) hd,
        List.length_drop]
      by_cases hle : l.length ≤ B
      · have h1 : l.length - B = 0 := by omega
        rw [h1, Nat.div_eq_of_lt (by omega)]
        exact (Nat.div_eq_of_lt_le (by omega) (by omega)).symm
      · have h1 : l.length - B + B - 1 = l.length - 1 := by omega
        have h2 : l.length + B - 1 = l.length - 1 + B := by omega
        rw [h1, h2, Nat.add_div_right _ hB]

theorem chunkList_sizes {α : Type} (B : Nat) (hB : 0 < B) :
    ∀ (n : Nat) (l : List α), l.length ≤ n →
      ∀ c ∈ chunkList B l, c.length ≤ B := by
  intro n
  induction n with
  | zero =>
    intro l hl c hc
    have hnil : l = [] := List.eq_nil_of_length_eq_zero (by omega)
    subst hnil
    rw [chunkList_nil] at hc
    exact absurd hc (List.not_mem_nil c)
  | succ n ih =>
    intro l hl c hc
    by_cases hnil : l = []
    · subst hnil
      rw [chunkList_nil] at hc
      exact absurd hc (List.not_mem_nil c)
    · rw [chunkList_cons B l hB hnil] at hc
      rcases List.mem_cons.mp hc with rfl | hc
      · simp
      · have hd : (l.drop B).length ≤ n := by
          have : 0 < l.length := List.length_pos.mpr hnil
          simp only [List.length_drop]
          omega
        exact ih (l.drop B) hd c hc

/-! ### Gather and partition lemmas -/

theorem okB_eq_ok {α : Type} (e : Except Nat α) (h : okB e = true) :
    ∃ a, e = Except.ok a := by
  cases e with
  | ok a => exact ⟨a, rfl⟩
  | error s => simp [okB] at h

theorem gatherExcept_ok {β : Type} (es : List (Except Nat (Outcome β)))
    (h : ∀ e ∈ es, okB e = true) :
    gatherExcept es = Except.ok (es.map okValue) := by
  induction es with
  | nil => rfl
  | cons e es ih =>
    obtain ⟨o, ho⟩ := okB_eq_ok e (h e (List.mem_cons_self e es))
    rw [ho, List.map_cons]
    show (match gatherExcept es with
      | Except.error s => Except.error s
      | Except.ok os => Except.ok (o :: os)) =
        Except.ok (okValue (Except.ok o) :: es.map okValue)
    rw [ih (fun x hx => h x (List.mem_cons_of_mem e hx))]
    rfl

theorem gatherExcept_error {β : Type} (es : List (Except Nat (Outcome β)))
    (h : ∃ e ∈ es, okB e = false) :
    ∃ s, gatherExcept es = Except.error s := by
  induction es with
  | nil =>
    obtain ⟨e, he, _⟩ := h
    exact absurd he (List.not_mem_nil e)
  | cons e es ih =>
    cases e with
    | error s => exact ⟨s, rfl⟩
    | ok o =>
      obtain ⟨e2, he2, hbad⟩ := h
      rcases List.mem_cons.mp he2 with rfl | he2
      · simp [okB] at hbad
      · obtain ⟨s, hs⟩ := ih ⟨e2, he2, hbad⟩
        refine ⟨s, ?_⟩
        show (match gatherExcept es with
          | Except.error s => Except.error s
          | Except.ok os => Except.ok (o :: os)) = _
        rw [hs]

theorem partitionOutcomes_eq {β : Type} (outs : List (Outcome β)) :
    partitionOutcomes outs = (outs.filterMap bodyOf, outs.filterMap nfOf) := by
  induction outs with
  | nil => rfl
  | cons o os ih => cases o <;> simp [partitionOutcomes, ih, bodyOf, nfOf]

theorem batchFetch_ok {β : Type} (oracle : ReqPath → Nat → Resp β)
    (byId : Bool) (c : List ReqPath)
    (h : ∀ p ∈ c, okB (resultOf oracle byId p) = true) :
    batchFetch oracle byId c =
      Except.ok ((c.map (outcomeOf oracle byId)).filterMap bodyOf,
        (c.map (outcomeOf oracle byId)).filterMap nfOf) := by
  unfold batchFetch
  rw [gatherExcept_ok (c.map (resultOf oracle byId)) ?hok]
  case hok =>
    intro e he
    obtain ⟨p, hp, rfl⟩ := List.mem_map.mp he
    exact h p hp
  rw [List.map_map]
  show Except.ok (partitionOutcomes (c.map (okValue ∘ resultOf oracle byId))) = _
  rw [partitionOutcomes_eq]
  rfl

theorem batchFetch_error {β : Type} (oracle : ReqPath → Nat → Resp β)
    (byId : Bool) (c : List ReqPath)
    (h : ∃ p ∈ c, okB (resultOf oracle byId p) = false) :
    ∃ s, batchFetch oracle byId c = Except.error s := by
  obtain ⟨p, hp, hbad⟩ := h
  obtain ⟨s, hs⟩ := gatherExcept_error (c.map (resultOf oracle byId))
    ⟨resultOf oracle byId p, List.mem_map_of_mem _ hp, hbad⟩
  refine ⟨s, ?_⟩
  unfold batchFetch
  rw [hs]
  rfl

/-! ### The batch loop of `_fetch_by_id` -/

theorem fetchByIdGo_ok {β : Type} (oracle : ReqPath → Nat → Resp β) :
    ∀ (cs : List (List ReqPath)) (acc : List β) (nf : List (Option Nat))
      (log : List ReqPath),
      (∀ p ∈ cs.flatten, okB (resultOf oracle true p) = true) →
      fetchByIdGo oracle cs acc nf log =
        (Except.ok (acc ++ (cs.flatten.map (outcomeOf oracle true)).filterMap bodyOf,
          nf ++ (cs.flatten.map (outcomeOf oracle true)).filterMap nfOf),
          log ++ cs.flatten) := by
  intro cs
  induction cs with
  | nil =>
    intro acc nf log _
    simp [fetchByIdGo]
  | cons c cs ih =>
    intro acc nf log h
    have hc : ∀ p ∈ c, okB (resultOf oracle true p) = true := fun p hp =>
      h p (List.mem_append_left cs.flatten hp)
    have hcs : ∀ p ∈ cs.flatten, okB (resultOf oracle true p) = true := fun p hp =>
      h p (List.mem_append_right c hp)
    have hstep : fetchByIdGo oracle (c :: cs) acc nf log =
        fetchByIdGo oracle cs
          (acc ++ (c.map (outcomeOf oracle true)).filterMap bodyOf)
          (nf ++ (c.map (outcomeOf oracle true)).filterMap nfOf) (log ++ c) := by
      show (match batchFetch oracle true c with
        | Except.error s => (Except.error s, log ++ c)
        | Except.ok (rs, bnf) =>
          fetchByIdGo oracle cs (acc ++ rs) (nf ++ bnf) (log ++ c)) = _
      rw [batchFetch_ok oracle true c hc]
    rw [hstep, ih _ _ _ hcs]
    simp [List.flatten_cons, List.map_append, List.filterMap_append,
      List.append_assoc]

theorem fetchByIdGo_stops {β : Type} (oracle : ReqPath → Nat → Resp β)
    (cbad : List ReqPath) (csRest : List (List ReqPath))
    (hbad : ∃ s, batchFetch oracle true cbad = Except.error s) :
    ∀ (csGood : List (List ReqPath)),
      (∀ q ∈ csGood.flatten, okB (resultOf oracle true q) = true) →
      ∀ (acc : List β) (nf : List (Option Nat)) (log : List ReqPath),
        (∃ s, (fetchByIdGo oracle (csGood ++ cbad :: csRest) acc nf log).1 =
          Except.error s) ∧
        (fetchByIdGo oracle (csGood ++ cbad :: csRest) acc nf log).2 =
          log ++ (csGood.flatten ++ cbad) := by
  intro csGood
  induction csGood with
  | nil =>
    intro _ acc nf log
    obtain ⟨s, hs⟩ := hbad
    have hstep : fetchByIdGo oracle ([] ++ cbad :: csRest) acc nf log =
        (Except.error s, log ++ cbad) := by
      show (match batchFetch oracle true cbad with
        | Except.error s => (Except.error s, log ++ cbad)
        | Except.ok (rs, bnf) =>
          fetchByIdGo oracle csRest (acc ++ rs) (nf ++ bnf) (log ++ cbad)) = _
      rw [hs]
    rw [hstep]
    exact ⟨⟨s, rfl⟩, by simp⟩
  | cons c cs ih =>
    intro hgood acc nf log
    have hc : ∀ p ∈ c, okB (resultOf oracle true p) = true := fun p hp =>
      hgood p (List.mem_append_left cs.flatten hp)
    have hcs : ∀ q ∈ cs.flatten, okB (resultOf oracle true q) = true := fun q hq =>
      hgood q (List.mem_append_right c hq)
    have hstep : fetchByIdGo oracle ((c :: cs) ++ cbad :: csRest) acc nf log =
        fetchByIdGo oracle (cs ++ cbad :: csRest)
          (acc ++ (c.map (outcomeOf oracle true)).filterMap bodyOf)
          (nf ++ (c.map (outcomeOf oracle true)).filterMap nfOf) (log ++ c) := by
      show (match batchFetch oracle true c with
        | Except.error s => (Except.error s, log ++ c)
        | Except.ok (rs, bnf) =>
          fetchByIdGo oracle (cs ++ cbad :: csRest) (acc ++ rs) (nf ++ bnf)
            (log ++ c)) = _
      rw [batchFetch_ok oracle true c hc]
    rw [hstep]
    obtain ⟨h1, h2⟩ := ih hcs
      (acc ++ (c.map (outcomeOf oracle true)).filterMap bodyOf)
      (nf ++ (c.map (outcomeOf oracle true)).filterMap nfOf) (log ++ c)
    refine ⟨h1, ?_⟩
    rw [h2]
    simp [List.flatten_cons, List.append_assoc]

/-! ### Deduplication lemmas: the Python dict comprehension of line 428 -/

theorem find?_map_of_pred {α : Type} (f : α → α) (p : α → Bool)
    (hf : ∀ x, p (f x) = p x) (l : List α) :
    (l.map f).find? p = (l.find? p).map f := by
  induction l with
  | nil => rfl
  | cons a l ih =>
    by_cases h : p a = true
    · rw [List.map_cons, List.find?_cons_of_pos _ (by rw [hf]; exact h),
        List.find?_cons_of_pos _ h]
      rfl
    · rw [List.map_cons, List.find?_cons_of_neg _ (by rw [hf]; simpa using h),
        List.find?_cons_of_neg _ (by simpa using h), ih]

theorem insertLast_pos (m : List (Nat × Record)) (r : Record)
    (hany : m.any (fun kv => kv.1 = r.rid) = true) :
    insertLast m r = m.map (fun kv => if kv.1 = r.rid then (kv.1, r) else kv) := by
  unfold insertLast
  rw [if_pos hany]

theorem insertLast_neg (m : List (Nat × Record)) (r : Record)
    (hany : ¬m.any (fun kv => kv.1 = r.rid) = true) :
    insertLast m r = m ++ [(r.rid, r)] := by
  unfold insertLast
  rw [if_neg hany]

theorem find?_insertLast (m : List (Nat × Record)) (r : Record) (k : Nat) :
    (insertLast m r).find? (fun kv => kv.1 = k) =
      if r.rid = k then some (k, r)
      else m.find? (fun kv => kv.1 = k) := by
  by_cases hany : m.any (fun kv => kv.1 = r.rid) = true
  · rw [insertLast_pos m r hany]
    have hkey : ∀ kv : Nat × Record,
        (fun kv : Nat × Record => decide (kv.1 = k))
          (if kv.1 = r.rid then (kv.1, r) else kv) =
        (fun kv : Nat × Record => decide (kv.1 = k)) kv := by
      intro kv
      by_cases h : kv.1 = r.rid
      · rw [if_pos h]
      · rw [if_neg h]
    rw [find?_map_of_pred _ _ hkey m]
    by_cases hk : r.rid = k
    · rw [if_pos hk]
      obtain ⟨kv0, hkv0, hkeq⟩ := List.any_eq_true.mp hany
      have hfind : (m.find? (fun kv => kv.1 = k)).isSome := by
        rw [List.find?_isSome]
        refine ⟨kv0, hkv0, ?_⟩
        simp only [decide_eq_true_eq] at hkeq ⊢
        rw [hkeq]
        exact hk
      obtain ⟨kv1, hkv1⟩ := Option.isSome_iff_exists.mp hfind
      have hkv1k : kv1.1 = k := by
        have := List.find?_some hkv1
        simpa using this
      rw [hkv1]
      show some (if kv1.1 = r.rid then (kv1.1, r) else kv1) = some (k, r)
      rw [if_pos (by rw [hk]; exact hkv1k), hkv1k]
    · rw [if_neg hk]
      cases hfind : m.find? (fun kv => kv.1 = k) with
      | none => rfl
      | some kv1 =>
        have hkv1k : kv1.1 = k := by
          have := List.find?_some hfind
          simpa using this
        show some (if kv1.1 = r.rid then (kv1.1, r) else kv1) = some kv1
        rw [if_neg (by rw [hkv1k]; intro hh; exact hk hh.symm)]
  · rw [insertLast_neg m r hany]
    rw [List.find?_append]
    by_cases hk : r.rid = k
    · rw [if_pos hk]
      have hnone : m.find? (fun kv => kv.1 = k) = none := by
        rw [List.find?_eq_none]
        intro kv hkv
        simp only [decide_eq_true_eq]
        intro hkk
        exact hany (List.any_eq_true.mpr ⟨kv, hkv, by simp [hkk, hk]⟩)
      rw [hnone]
      show List.find? (fun kv => kv.1 = k) [(r.rid, r)] = some (k, r)
      rw [List.find?_cons_of_pos _ (by simpa using hk)]
      rw [hk]
    · rw [if_neg hk]
      have hone : List.find? (fun kv => decide (kv.1 = k)) [(r.rid, r)] = none := by
        rw [List.find?_eq_none]
        intro kv hkv
        simp only [List.mem_singleton] at hkv
        subst hkv
        simpa using hk
      rw [hone]
      cases m.find? (fun kv => kv.1 = k) <;> rfl

theorem entries_lookup (rs : List Record) (k : Nat) :
    (rs.foldl insertLast []).find? (fun kv => kv.1 = k) =
      ((rs.filter (fun r => r.rid = k)).getLast?).map (fun r => (k, r)) := by
  induction rs using List.reverseRecOn with
  | nil => rfl
  | append_singleton rs r ih =>
    rw [List.foldl_append, List.foldl_cons, List.foldl_nil, find?_insertLast,
      List.filter_append]
    by_cases hk : r.rid = k
    · rw [if_pos hk]
      have : List.filter (fun r => decide (r.rid = k)) [r] = [r] := by
        simp [hk]
      rw [this, List.getLast?_concat]
      rfl
    · rw [if_neg hk]
      have : List.filter (fun r => decide (r.rid = k)) [r] = [] := by
        simp [hk]
      rw [this, List.append_nil, ih]

theorem entries_rid_eq_key (rs : List Record) :
    ∀ kv ∈ rs.foldl insertLast [], kv.2.rid = kv.1 := by
  induction rs using List.reverseRecOn with
  | nil => intro kv hkv; exact absurd hkv (List.not_mem_nil kv)
  | append_singleton rs r ih =>
    intro kv hkv
    rw [List.foldl_append, List.foldl_cons, List.foldl_nil] at hkv
    by_cases hany : (rs.foldl insertLast []).any (fun kv => kv.1 = r.rid) = true
    · rw [insertLast_pos _ r hany] at hkv
      obtain ⟨kv0, hkv0, hfkv⟩ := List.mem_map.mp hkv
      by_cases h0 : kv0.1 = r.rid
      · rw [if_pos h0] at hfkv
        rw [← hfkv]
        exact h0.symm
      · rw [if_neg h0] at hfkv
        rw [← hfkv]
        exact ih kv0 hkv0
    · rw [insertLast_neg _ r hany] at hkv
      rcases List.mem_append.mp hkv with hm | hm
      · exact ih kv hm
      · rw [List.mem_singleton] at hm
        subst hm
        rfl

theorem keys_insertLast (m : List (Nat × Record)) (r : Record)
    (hnd : (m.map Prod.fst).Nodup) :
    ((insertLast m r).map Prod.fst).Nodup := by
  by_cases hany : m.any (fun kv => kv.1 = r.rid) = true
  · rw [insertLast_pos m r hany]
    have hkeys : (m.map (fun kv => if kv.1 = r.rid then (kv.1, r) else kv)).map
        Prod.fst = m.map Prod.fst := by
      rw [List.map_map]
      apply List.map_congr_left
      intro kv _
      by_cases h : kv.1 = r.rid
      · simp [h]
      · simp [h]
    rw [hkeys]
    exact hnd
  · rw [insertLast_neg m r hany]
    rw [List.map_append]
    apply List.Nodup.append hnd (List.nodup_singleton r.rid)
    intro a ha hb
    rw [List.mem_singleton] at hb
    subst hb
    obtain ⟨kv, hkv, hk⟩ := List.mem_map.mp ha
    exact hany (List.any_eq_true.mpr ⟨kv, hkv, by simp [hk]⟩)

theorem entries_keys_nodup (rs : List Record) :
    ((rs.foldl insertLast []).map Prod.fst).Nodup := by
  induction rs using List.reverseRecOn with
  | nil => exact List.nodup_nil
  | append_singleton rs r ih =>
    rw [List.foldl_append, List.foldl_cons, List.foldl_nil]
    exact keys_insertLast _ r ih

theorem dedupById_rid_nodup (rs : List Record) :
    ((dedupById rs).map Record.rid).Nodup := by
  unfold dedupById
  have hmap : ((rs.foldl insertLast []).map Prod.snd).map Record.rid =
      (rs.foldl insertLast []).map Prod.fst := by
    rw [List.map_map]
    apply List.map_congr_left
    intro kv hkv
    exact entries_rid_eq_key rs kv hkv
  rw [hmap]
  exact entries_keys_nodup rs

theorem find?_values (m : List (Nat × Record))
    (hinv : ∀ kv ∈ m, kv.2.rid = kv.1) (k : Nat) :
    (m.map Prod.snd).find? (fun r => r.rid = k) =
      (m.find? (fun kv => kv.1 = k)).map Prod.snd := by
  induction m with
  | nil => rfl
  | cons kv m ih =>
    have hkv : kv.2.rid = kv.1 := hinv kv (List.mem_cons_self kv m)
    by_cases h : kv.1 = k
    · rw [List.map_cons, List.find?_cons_of_pos _ (by simp [hkv, h]),
        List.find?_cons_of_pos _ (by simp [h])]
      rfl
    · rw [List.map_cons, List.find?_cons_of_neg _ (by simp [hkv, h]),
        List.find?_cons_of_neg _ (by simp [h]),
        ih (fun x hx => hinv x (List.mem_cons_of_mem kv hx))]

/-- The dict comprehension keeps, for every id, exactly the last record with
that id from `all_results`. -/
theorem dedupById_find? (rs : List Record) (k : Nat) :
    (dedupById rs).find? (fun r => r.rid = k) =
      (rs.filter (fun r => r.rid = k)).getLast? := by
  unfold dedupById
  rw [find?_values (rs.foldl insertLast []) (entries_rid_eq_key rs) k,
    entries_lookup rs k]
  cases (rs.filter (fun r => r.rid = k)).getLast? <;> rfl

theorem mem_values_insertLast (m : List (Nat × Record)) (r : Record)
    (v : Record) (hv : v ∈ (insertLast m r).map Prod.snd) :
    v ∈ m.map Prod.snd ∨ v = r := by
  by_cases hany : m.any (fun kv => kv.1 = r.rid) = true
  · rw [insertLast_pos m r hany] at hv
    rw [List.map_map] at hv
    obtain ⟨kv, hkv, hfkv⟩ := List.mem_map.mp hv
    by_cases h : kv.1 = r.rid
    · simp only [Function.comp, if_pos h] at hfkv
      exact Or.inr hfkv.symm
    · simp only [Function.comp, if_neg h] at hfkv
      exact Or.inl (hfkv ▸ List.mem_map_of_mem Prod.snd hkv)
  · rw [insertLast_neg m r hany, List.map_append] at hv
    rcases List.mem_append.mp hv with hm | hm
    · exact Or.inl hm
    · rw [List.map_singleton, List.mem_singleton] at hm
      exact Or.inr hm

theorem mem_values_foldl (rs : List Record) :
    ∀ (m : List (Nat × Record)) (v : Record),
      v ∈ ((rs.foldl insertLast m).map Prod.snd) →
      v ∈ m.map Prod.snd ∨ v ∈ rs := by
  induction rs with
  | nil =>
    intro m v hv
    exact Or.inl hv
  | cons a rs ih =>
    intro m v hv
    rw [List.foldl_cons] at hv
    rcases ih (insertLast m a) v hv with hm | hm
    · rcases mem_values_insertLast m a v hm with hm2 | hm2
      · exact Or.inl hm2
      · exact Or.inr (hm2 ▸ List.mem_cons_self a rs)
    · exact Or.inr (List.mem_cons_of_mem a hm)

theorem mem_dedupById (rs : List Record) (v : Record)
    (hv : v ∈ dedupById rs) : v ∈ rs := by
  unfold dedupById at hv
  rcases mem_values_foldl rs [] v hv with hm | hm
  · exact absurd hm (List.not_mem_nil v)
  · exact hm

/-! ### Claim theorems: bulk by-id fetching (C6, C7) -/

/-- C6: a bulk by-id fetch contains at most one record per identifier even
when an identifier occurs more than once in the input, and for a duplicated
identifier the last-fetched record wins: when the batch loop accumulated
`all_results = raw` (in fetch order) without an authorization abort, the
returned records are `dedupById raw`, their `id` fields are pairwise
distinct, and the record kept for id `k` is exactly the LAST record with id
`k` in `raw`. -/
theorem c6_dedup_last_wins (oracle : ReqPath → Nat → Resp Record) (B : Nat)
    (paths : List ReqPath) (raw : List Record) (nf : List (Option Nat))
    (log : List ReqPath) (k : Nat)
    (hraw : fetchByIdRaw oracle B paths = (Except.ok (raw, nf), log)) :
    fetchById oracle B paths = (Except.ok (dedupById raw, nf), log) ∧
    ((dedupById raw).map Record.rid).Nodup ∧
    (dedupById raw).find? (fun r => r.rid = k) =
      (raw.filter (fun r => r.rid = k)).getLast? := by
  refine ⟨?_, dedupById_rid_nodup raw, dedupById_find? raw k⟩
  unfold fetchById
  rw [hraw]
  rfl

theorem c6_witness :
    fetchByIdRaw (fun p _ => Resp.ok ⟨5, p.1.length⟩) 10 [("movie", 5), ("tv", 5)] =
      (Except.ok (([⟨5, 5⟩, ⟨5, 2⟩] : List Record), ([] : List (Option Nat))),
        [("movie", 5), ("tv", 5)]) ∧
    (fetchById (fun p _ => Resp.ok ⟨5, p.1.length⟩) 10 [("movie", 5), ("tv", 5)] =
      (Except.ok (dedupById ([⟨5, 5⟩, ⟨5, 2⟩] : List Record), ([] : List (Option Nat))),
        [("movie", 5), ("tv", 5)]) ∧
    ((dedupById ([⟨5, 5⟩, ⟨5, 2⟩] : List Record)).map Record.rid).Nodup ∧
    (dedupById ([⟨5, 5⟩, ⟨5, 2⟩] : List Record)).find? (fun r => r.rid = 5) =
      (([⟨5, 5⟩, ⟨5, 2⟩] : List Record).filter (fun r => r.rid = 5)).getLast?) :=
  ⟨by decide,
    c6_dedup_last_wins (fun p _ => Resp.ok ⟨5, p.1.length⟩) 10
      [("movie", 5), ("tv", 5)] ([⟨5, 5⟩, ⟨5, 2⟩] : List Record) []
      [("movie", 5), ("tv", 5)] 5 (by decide)⟩

/-- C7: an identifier-keyed fetch answered with 404 does not raise, its
identifier is excluded from the fetched-records list, and the
NotFetched(identifier, not-found) marker — the identifier itself — appears in
the not-fetched collection.  (Hypotheses: positive batch size, no request of
the bulk call raises an authorization error, records returned for other
paths honestly carry their own requested id, and no other path requests
`p`'s id.) -/
theorem c7_not_found_marker (oracle : ReqPath → Nat → Resp Record) (B : Nat)
    (paths : List ReqPath) (p : ReqPath) (hB : 0 < B) (hp : p ∈ paths)
    (h404 : oracle p 1 = Resp.httpError 404)
    (hok : ∀ q ∈ paths, okB (resultOf oracle true q) = true)
    (honest : ∀ q ∈ paths, honestB (resultOf oracle true q) q.2 = true)
    (hsame : ∀ q ∈ paths, q.2 = p.2 → q = p) :
    ∃ records nf,
      (fetchById oracle B paths).1 = Except.ok (records, nf) ∧
      some p.2 ∈ nf ∧ p.2 ∉ records.map Record.rid := by
  have hres : resultOf oracle true p = Except.ok (Outcome.intRet p.2) := by
    unfold resultOf
    rw [fetchData_404 (oracle p) p.2 h404]
  have hout : outcomeOf oracle true p = Outcome.intRet p.2 := by
    unfold outcomeOf
    rw [hres]
    rfl
  have hjoin : (chunkList B paths).flatten = paths :=
    chunkList_join B hB paths.length paths (le_refl _)
  have hgo := fetchByIdGo_ok oracle (chunkList B paths) [] [] []
    (by rw [hjoin]; exact hok)
  rw [hjoin] at hgo
  refine ⟨dedupById ((paths.map (outcomeOf oracle true)).filterMap bodyOf),
    (paths.map (outcomeOf oracle true)).filterMap nfOf, ?_, ?_, ?_⟩
  · show (fetchByIdRaw oracle B paths).1.map
        (fun pr => (dedupById pr.1, pr.2)) = _
    unfold fetchByIdRaw
    rw [hgo]
    rfl
  · exact List.mem_filterMap.mpr
      ⟨outcomeOf oracle true p, List.mem_map_of_mem _ hp, by rw [hout]; rfl⟩
  · intro hmem
    obtain ⟨r, hr, hrid⟩ := List.mem_map.mp hmem
    have hrraw := mem_dedupById _ r hr
    obtain ⟨o, ho, hbody⟩ := List.mem_filterMap.mp hrraw
    obtain ⟨q, hq, rfl⟩ := List.mem_map.mp ho
    have hqres : resultOf oracle true q = Except.ok (outcomeOf oracle true q) := by
      obtain ⟨a, ha⟩ := okB_eq_ok _ (hok q hq)
      rw [ha]
      unfold outcomeOf
      rw [ha]
      rfl
    have hqbody : outcomeOf oracle true q = Outcome.body r := by
      cases hoq : outcomeOf oracle true q with
      | body b =>
        rw [hoq] at hbody
        have hbr : b = r := Option.some.inj hbody
        rw [hbr]
      | intRet n => rw [hoq] at hbody; simp [bodyOf] at hbody
      | noneRet => rw [hoq] at hbody; simp [bodyOf] at hbody
    have hhq := honest q hq
    rw [hqres, hqbody] at hhq
    have hridq : r.rid = q.2 := by simpa [honestB] using hhq
    have hq2p2 : q.2 = p.2 := by rw [← hridq, hrid]
    have hqp : q = p := hsame q hq hq2p2
    subst hqp
    rw [hres] at hqres
    have heq : Outcome.intRet q.2 = outcomeOf oracle true q :=
      Except.ok.inj hqres
    rw [← heq] at hqbody
    exact Outcome.noConfusion hqbody

theorem c7_witness :
    (0 : Nat) < 10 ∧
    ∃ records nf,
      (fetchById
        (fun p _ => if p.2 = 3 then Resp.httpError 404 else Resp.ok ⟨4, 0⟩)
        10 [("movie", 3), ("movie", 4)]).1 = Except.ok (records, nf) ∧
      some (3 : Nat) ∈ nf ∧ (3 : Nat) ∉ records.map Record.rid :=
  ⟨by decide,
    c7_not_found_marker
      (fun p _ => if p.2 = 3 then Resp.httpError 404 else Resp.ok ⟨4, 0⟩)
      10 [("movie", 3), ("movie", 4)] ("movie", 3) (by decide) (by decide)
      (by decide) (by decide) (by decide) (by decide)⟩

/-! ### Claim theorems: fatal short-circuit (C3) and the partition/union law (C5) -/

/-- C3: a 401 (or 403) received by any single request inside a bulk by-id
fetch makes the whole operation raise the authorization error to the caller
(no partial (records, not_fetched) value exists), and no batch after the one
containing the failing request is ever scheduled: the request log stops at
the failing batch. -/
theorem c3_auth_aborts_bulk (oracle : ReqPath → Nat → Resp Record) (B : Nat)
    (paths : List ReqPath) (csGood : List (List ReqPath)) (cbad : List ReqPath)
    (csRest : List (List ReqPath)) (p : ReqPath)
    (hsplit : chunkList B paths = csGood ++ cbad :: csRest)
    (hgood : ∀ q ∈ csGood.flatten, okB (resultOf oracle true q) = true)
    (hp : p ∈ cbad)
    (hauth : oracle p 1 = Resp.httpError 401 ∨ oracle p 1 = Resp.httpError 403) :
    (∃ s, (fetchById oracle B paths).1 = Except.error s) ∧
    (fetchById oracle B paths).2 = csGood.flatten ++ cbad := by
  have hbadres : okB (resultOf oracle true p) = false := by
    rcases hauth with h | h
    · unfold resultOf
      rw [fetchData_auth (oracle p) p.2 401 true h (Or.inl rfl)]
      rfl
    · unfold resultOf
      rw [fetchData_auth (oracle p) p.2 403 true h (Or.inr rfl)]
      rfl
  have hbad : ∃ s, batchFetch oracle true cbad = Except.error s :=
    batchFetch_error oracle true cbad ⟨p, hp, hbadres⟩
  have hrawEq : fetchByIdRaw oracle B paths =
      fetchByIdGo oracle (csGood ++ cbad :: csRest) [] [] [] := by
    unfold fetchByIdRaw
    rw [hsplit]
  obtain ⟨⟨s, hs1⟩, hs2⟩ :=
    fetchByIdGo_stops oracle cbad csRest hbad csGood hgood [] [] []
  constructor
  · refine ⟨s, ?_⟩
    show (fetchByIdRaw oracle B paths).1.map
      (fun pr => (dedupById pr.1, pr.2)) = Except.error s
    rw [hrawEq, hs1]
    rfl
  · show (fetchByIdRaw oracle B paths).2 = _
    rw [hrawEq, hs2]
    rfl

theorem c3_witness :
    chunkList 1 [("movie", 1), ("movie", 2)] =
      [[("movie", 1)]] ++ [("movie", 2)] :: [] ∧
    ((∃ s, (fetchById
        (fun p _ => if p.2 = 2 then Resp.httpError 401 else Resp.ok ⟨1, 0⟩)
        1 [("movie", 1), ("movie", 2)]).1 = Except.error s) ∧
      (fetchById
        (fun p _ => if p.2 = 2 then Resp.httpError 401 else Resp.ok ⟨1, 0⟩)
        1 [("movie", 1), ("movie", 2)]).2 =
        [[("movie", 1)]].flatten ++ [("movie", 2)]) :=
  ⟨by decide,
    c3_auth_aborts_bulk
      (fun p _ => if p.2 = 2 then Resp.httpError 401 else Resp.ok ⟨1, 0⟩)
      1 [("movie", 1), ("movie", 2)] [[("movie", 1)]] [("movie", 2)] []
      ("movie", 2) (by decide) (by decide) (by decide) (Or.inl rfl)⟩

/-- The id set of the deduplicated records is the id set of `all_results`. -/
theorem mem_rid_dedupById (rs : List Record) (k : Nat) :
    k ∈ (dedupById rs).map Record.rid ↔ k ∈ rs.map Record.rid := by
  constructor
  · intro h
    obtain ⟨r, hr, hrid⟩ := List.mem_map.mp h
    exact List.mem_map.mpr ⟨r, mem_dedupById rs r hr, hrid⟩
  · intro h
    obtain ⟨r, hr, hrid⟩ := List.mem_map.mp h
    have hfil : r ∈ rs.filter (fun r => r.rid = k) :=
      List.mem_filter.mpr ⟨hr, by simp [hrid]⟩
    have hne : rs.filter (fun r => r.rid = k) ≠ [] :=
      List.ne_nil_of_mem hfil
    obtain ⟨r2, hr2⟩ := Option.isSome_iff_exists.mp
      (List.getLast?_isSome.mpr hne)
    have hfind : (dedupById rs).find? (fun r => r.rid = k) = some r2 := by
      rw [dedupById_find? rs k, hr2]
    have hr2mem : r2 ∈ dedupById rs := List.mem_of_find?_eq_some hfind
    have hr2k : r2.rid = k := by
      have := List.find?_some hfind
      simpa using this
    exact List.mem_map.mpr ⟨r2, hr2mem, hr2k⟩

/-- C5 counterexample: a bulk fetch of the single identifier 42 whose request
is answered with status 400 returns records = [] and not_fetched = [0]: the
union of the fetched and not-fetched identifiers is the set containing the
sentinel 0, not the deduplicated input set containing 42. -/
theorem c5_counterexample :
    (fetchMoviesById (fun _ _ => Resp.httpError 400) [42] 100).1 =
      Except.ok ([], [some 0]) ∧
    (([] : List Record).map Record.rid).toFinset ∪
        ([some 0] : List (Option Nat)).reduceOption.toFinset ≠
      ([42] : List Nat).toFinset := by
  exact ⟨by decide, by decide⟩

/-- C5 (amended): the bulk fetch partitions N identifiers into ⌈N/B⌉
consecutive batches of size at most B (true unconditionally), and the union
law `fetched ids ∪ not-fetched ids = deduplicated input ids` holds provided
every identifier resolves cleanly — an honest record for its own id, or the
404 marker carrying the id itself.  (Without this proviso the code records
the sentinel 0 for fetch-failed identifiers and the law fails, as the
counterexample shows.) -/
theorem c5_amended (oracle : ReqPath → Nat → Resp Record) (movieIds : List Nat)
    (B : Nat) (R : List Record) (NF : List (Option Nat)) (L : List ReqPath)
    (hB : 0 < B)
    (hclean : ∀ i ∈ movieIds, okOr404 (resultOf oracle true ("movie", i)) i = true)
    (hres : fetchMoviesById oracle movieIds B = (Except.ok (R, NF), L)) :
    (chunkList B (movieIds.map (fun i => ("movie", i)))).length =
      (movieIds.length + B - 1) / B ∧
    (∀ c ∈ chunkList B (movieIds.map (fun i => ("movie", i))), c.length ≤ B) ∧
    (R.map Record.rid).toFinset ∪ NF.reduceOption.toFinset =
      movieIds.toFinset := by
  have hlen : (movieIds.map (fun i => ("movie", i)) : List ReqPath).length =
      movieIds.length := List.length_map movieIds _
  refine ⟨?_, ?_, ?_⟩
  · rw [chunkList_length_eq B hB _ _ (le_refl _), hlen]
  · exact chunkList_sizes B hB _ _ (le_refl _)
  · -- clean resolution of each path
    have hok : ∀ q ∈ movieIds.map (fun i => (("movie", i) : ReqPath)),
        okB (resultOf oracle true q) = true := by
      intro q hq
      obtain ⟨i, hi, rfl⟩ := List.mem_map.mp hq
      have hcl := hclean i hi
      cases he : resultOf oracle true ("movie", i) with
      | ok o => rfl
      | error s => rw [he] at hcl; simp [okOr404] at hcl
    have hjoin : (chunkList B (movieIds.map (fun i => ("movie", i)))).flatten =
        movieIds.map (fun i => ("movie", i)) :=
      chunkList_join B hB _ _ (le_refl _)
    have hgo := fetchByIdGo_ok oracle
      (chunkList B (movieIds.map (fun i => ("movie", i)))) [] [] []
      (by rw [hjoin]; exact hok)
    rw [hjoin] at hgo
    have hcomp : fetchMoviesById oracle movieIds B =
        (Except.ok
          (dedupById (((movieIds.map (fun i => ("movie", i))).map
              (outcomeOf oracle true)).filterMap bodyOf),
            ((movieIds.map (fun i => ("movie", i))).map
              (outcomeOf oracle true)).filterMap nfOf),
          movieIds.map (fun i => ("movie", i))) := by
      show ((fetchByIdRaw oracle B (movieIds.map (fun i => ("movie", i)))).1.map
          (fun pr => (dedupById pr.1, pr.2)),
        (fetchByIdRaw oracle B (movieIds.map (fun i => ("movie", i)))).2) = _
      unfold fetchByIdRaw
      rw [hgo]
      rfl
    rw [hres] at hcomp
    have hRNF := Except.ok.inj (congrArg Prod.fst hcomp)
    have hR : R = dedupById (((movieIds.map (fun i => ("movie", i))).map
        (outcomeOf oracle true)).filterMap bodyOf) := congrArg Prod.fst hRNF
    have hNF : NF = ((movieIds.map (fun i => ("movie", i))).map
        (outcomeOf oracle true)).filterMap nfOf := congrArg Prod.snd hRNF
    subst hR
    subst hNF
    ext k
    simp only [Finset.mem_union, List.mem_toFinset]
    constructor
    · intro hk
      rcases hk with hk | hk
      · rw [mem_rid_dedupById] at hk
        obtain ⟨r, hr, hrid⟩ := List.mem_map.mp hk
        obtain ⟨o, ho, hbody⟩ := List.mem_filterMap.mp hr
        obtain ⟨q, hq, rfl⟩ := List.mem_map.mp ho
        obtain ⟨i, hi, rfl⟩ := List.mem_map.mp hq
        have hcl := hclean i hi
        cases he : resultOf oracle true ("movie", i) with
        | error s => rw [he] at hcl; simp [okOr404] at hcl
        | ok o2 =>
          have hoeq : outcomeOf oracle true ("movie", i) = o2 := by
            unfold outcomeOf
            rw [he]
            rfl
          rw [he] at hcl
          cases o2 with
          | body b =>
            rw [hoeq] at hbody
            have hbr : b = r := Option.some.inj hbody
            simp only [okOr404, decide_eq_true_eq] at hcl
            have hki : k = i := hrid.symm.trans (hbr ▸ hcl)
            rw [hki]
            exact hi
          | intRet n => rw [hoeq] at hbody; simp [bodyOf] at hbody
          | noneRet => rw [hoeq] at hbody; simp [bodyOf] at hbody
      · rw [List.reduceOption_mem_iff] at hk
        obtain ⟨o, ho, hnf⟩ := List.mem_filterMap.mp hk
        obtain ⟨q, hq, rfl⟩ := List.mem_map.mp ho
        obtain ⟨i, hi, rfl⟩ := List.mem_map.mp hq
        have hcl := hclean i hi
        cases he : resultOf oracle true ("movie", i) with
        | error s => rw [he] at hcl; simp [okOr404] at hcl
        | ok o2 =>
          have hoeq : outcomeOf oracle true ("movie", i) = o2 := by
            unfold outcomeOf
            rw [he]
            rfl
          rw [he] at hcl
          cases o2 with
          | body b => rw [hoeq] at hnf; simp [nfOf] at hnf
          | noneRet => rw [hoeq] at hnf; simp [okOr404] at hcl
          | intRet n =>
            rw [hoeq] at hnf
            have hni : n = i := by simpa [okOr404] using hcl
            have hkn : n = k := by simpa [nfOf] using hnf
            rw [← hkn, hni] at *
            rw [← hkn]
            rw [hni]
            exact hi
    · intro hi
      have hcl := hclean k hi
      have hqmem : (("movie", k) : ReqPath) ∈
          movieIds.map (fun i => (("movie", i) : ReqPath)) :=
        List.mem_map.mpr ⟨k, hi, rfl⟩
      cases he : resultOf oracle true ("movie", k) with
      | error s => rw [he] at hcl; simp [okOr404] at hcl
      | ok o2 =>
        have hoeq : outcomeOf oracle true ("movie", k) = o2 := by
          unfold outcomeOf
          rw [he]
          rfl
        rw [he] at hcl
        cases o2 with
        | body b =>
          left
          rw [mem_rid_dedupById]
          have hbk : b.rid = k := by simpa [okOr404] using hcl
          refine List.mem_map.mpr ⟨b, ?_, hbk⟩
          exact List.mem_filterMap.mpr
            ⟨outcomeOf oracle true ("movie", k),
              List.mem_map_of_mem _ hqmem, by rw [hoeq]; rfl⟩
        | intRet n =>
          right
          rw [List.reduceOption_mem_iff]
          have hnk : n = k := by simpa [okOr404] using hcl
          refine List.mem_filterMap.mpr
            ⟨outcomeOf oracle true ("movie", k),
              List.mem_map_of_mem _ hqmem, ?_⟩
          rw [hoeq, hnk]
          rfl
        | noneRet => simp [okOr404] at hcl

theorem c5_witness :
    (0 : Nat) < 2 ∧
    ((chunkList 2 (([1, 2, 1] : List Nat).map (fun i => ("movie", i)))).length =
      (([1, 2, 1] : List Nat).length + 2 - 1) / 2 ∧
    (∀ c ∈ chunkList 2 (([1, 2, 1] : List Nat).map (fun i => ("movie", i))),
      c.length ≤ 2) ∧
    (([⟨1, 0⟩] : List Record).map Record.rid).toFinset ∪
        ([some 2] : List (Option Nat)).reduceOption.toFinset =
      ([1, 2, 1] : List Nat).toFinset) :=
  ⟨by decide,
    c5_amended
      (fun p _ => if p.2 = 2 then Resp.httpError 404 else Resp.ok ⟨p.2, 0⟩)
      [1, 2, 1] 2 [⟨1, 0⟩] [some 2] [("movie", 1), ("movie", 2), ("movie", 1)]
      (by decide) (by decide) (by decide)⟩

/-! ### Day-loop lemmas for the change-diff engine -/

theorem fetchPagesM_ok (oracle : Int → Nat → Nat → Resp Page) (d : Int)
    (a b : Nat)
    (h : ∀ p ∈ List.range' a (b + 1 - a),
      okB ((fetchData (oracle d p) 0 false).result) = true) :
    fetchPagesM oracle d a b =
      (Except.ok (((List.range' a (b + 1 - a)).map
          (fun p => okValue ((fetchData (oracle d p) 0 false).result))).filterMap
            bodyOf),
        (List.range' a (b + 1 - a)).map (fun p => ((d : Int), p))) := by
  show ((gatherExcept ((List.range' a (b + 1 - a)).map
      (fun p => (fetchData (oracle d p) 0 false).result))).map
      (fun outs => outs.filterMap bodyOf),
    (List.range' a (b + 1 - a)).map (fun p => ((d : Int), p))) = _
  rw [gatherExcept_ok _ ?hok]
  case hok =>
    intro e he
    obtain ⟨p, hp, rfl⟩ := List.mem_map.mp he
    exact h p hp
  rw [List.map_map]
  rfl

theorem loopSteps_step_error (oracle : Int → Nat → Nat → Resp Page)
    (isMovie : Bool) (n : Nat) (cur : Int) (ids : Finset Nat) (e : DiffErr)
    (l : List (Int × Nat)) (hd : dayStep oracle isMovie cur = (Except.error e, l)) :
    loopSteps oracle isMovie (n + 1) cur ids = (Except.error e, l) := by
  conv_lhs => unfold loopSteps
  rw [hd]

theorem loopSteps_step_skip (oracle : Int → Nat → Nat → Resp Page)
    (isMovie : Bool) (n : Nat) (cur : Int) (ids : Finset Nat)
    (l : List (Int × Nat)) (hd : dayStep oracle isMovie cur = (Except.ok none, l)) :
    loopSteps oracle isMovie (n + 1) cur ids =
      ((loopSteps oracle isMovie n cur ids).1,
        l ++ (loopSteps oracle isMovie n cur ids).2) := by
  conv_lhs => unfold loopSteps
  rw [hd]

theorem loopSteps_step_day (oracle : Int → Nat → Nat → Resp Page)
    (isMovie : Bool) (n : Nat) (cur : Int) (ids : Finset Nat) (s : Finset Nat)
    (l : List (Int × Nat))
    (hd : dayStep oracle isMovie cur = (Except.ok (some s), l)) :
    loopSteps oracle isMovie (n + 1) cur ids =
      ((loopSteps oracle isMovie n (cur - 1) (ids ∪ s)).1,
        l ++ (loopSteps oracle isMovie n (cur - 1) (ids ∪ s)).2) := by
  conv_lhs => unfold loopSteps
  rw [hd]

/-- The accumulated id set never shrinks across the day loop. -/
theorem loopSteps_mono (oracle : Int → Nat → Nat → Resp Page) (isMovie : Bool) :
    ∀ (n : Nat) (cur : Int) (ids : Finset Nat) (c2 : Int) (ids2 : Finset Nat),
      (loopSteps oracle isMovie n cur ids).1 = Except.ok (c2, ids2) →
      ids ⊆ ids2 := by
  intro n
  induction n with
  | zero =>
    intro cur ids c2 ids2 h
    have hp := Except.ok.inj h
    have hs : ids = ids2 := congrArg Prod.snd hp
    rw [hs]
  | succ n ih =>
    intro cur ids c2 ids2 h
    rcases hd : dayStep oracle isMovie cur with ⟨r, l⟩
    cases r with
    | error e =>
      rw [loopSteps_step_error oracle isMovie n cur ids e l hd] at h
      simp at h
    | ok o =>
      cases o with
      | none =>
        rw [loopSteps_step_skip oracle isMovie n cur ids l hd] at h
        exact ih cur ids c2 ids2 h
      | some s =>
        rw [loopSteps_step_day oracle isMovie n cur ids s l hd] at h
        exact Finset.subset_union_left.trans (ih (cur - 1) (ids ∪ s) c2 ids2 h)

/-- Running `m + n` day-loop iterations is running `m` and continuing with
`n` from the reached state. -/
theorem loopSteps_add (oracle : Int → Nat → Nat → Resp Page) (isMovie : Bool) :
    ∀ (m n : Nat) (cur : Int) (ids : Finset Nat),
      (loopSteps oracle isMovie (m + n) cur ids).1 =
        match (loopSteps oracle isMovie m cur ids).1 with
        | Except.error e => Except.error e
        | Except.ok st => (loopSteps oracle isMovie n st.1 st.2).1 := by
  intro m
  induction m with
  | zero =>
    intro n cur ids
    rw [Nat.zero_add]
    rfl
  | succ m ih =>
    intro n cur ids
    rw [Nat.succ_add]
    rcases hd : dayStep oracle isMovie cur with ⟨r, l⟩
    cases r with
    | error e =>
      rw [loopSteps_step_error oracle isMovie (m + n) cur ids e l hd,
        loopSteps_step_error oracle isMovie m cur ids e l hd]
    | ok o =>
      cases o with
      | none =>
        rw [loopSteps_step_skip oracle isMovie (m + n) cur ids l hd,
          loopSteps_step_skip oracle isMovie m cur ids l hd]
        exact ih n cur ids
      | some s =>
        rw [loopSteps_step_day oracle isMovie (m + n) cur ids s l hd,
          loopSteps_step_day oracle isMovie m cur ids s l hd]
        exact ih n (cur - 1) (ids ∪ s)

/-- When the page-1 discovery call for date `cur` yields a page dict with a
usable `total_pages`, one day-loop iteration at `cur` either propagates an
authorization error raised by a deeper data page, or succeeds with the day's
id set: the warn-and-skip path (missing `total_pages`) and the IndexError
path (no page dict at all) are both impossible. -/
theorem dayStep_eq_of_discovery (oracle : Int → Nat → Nat → Resp Page)
    (isMovie : Bool) (cur : Int) (pg : Page) (tp : Nat)
    (hpg : (fetchData (oracle cur 1) 0 false).result = Except.ok (Outcome.body pg))
    (htp2 : pg.totalPages = some tp) :
    dayStep oracle isMovie cur =
      (match fetchPagesM oracle cur 1 (min tp 500) with
        | (Except.error s, l2) =>
          (Except.error (DiffErr.auth s), [((cur : Int), (1 : Nat))] ++ l2)
        | (Except.ok pages2, l2) =>
          (Except.ok (some (extractIds isMovie pages2)),
            [((cur : Int), (1 : Nat))] ++ l2)) := by
  have hok1 : ∀ p ∈ List.range' 1 (1 + 1 - 1),
      okB ((fetchData (oracle cur p) 0 false).result) = true := by
    intro p hp
    rw [show List.range' 1 (1 + 1 - 1) = [1] from rfl] at hp
    rw [List.mem_singleton] at hp
    rw [hp, hpg]
    rfl
  have hdisc2 : fetchPagesM oracle cur 1 1 = (Except.ok [pg], [(cur, 1)]) := by
    rw [fetchPagesM_ok oracle cur 1 1 hok1]
    rw [show List.range' 1 (1 + 1 - 1) = [1] from rfl]
    rw [List.map_cons, List.map_nil, hpg]
    rfl
  unfold dayStep
  rw [hdisc2]
  show (match pg.totalPages with
    | none => (Except.ok none, [((cur : Int), (1 : Nat))])
    | some tp =>
      match fetchPagesM oracle cur 1 (min tp 500) with
      | (Except.error s, l2) =>
        (Except.error (DiffErr.auth s), [((cur : Int), (1 : Nat))] ++ l2)
      | (Except.ok pages2, l2) =>
        (Except.ok (some (extractIds isMovie pages2)),
          [((cur : Int), (1 : Nat))] ++ l2)) = _
  rw [htp2]

/-- If the day loop returned ok and every date it can have queried (the `n`
trailing days from `cur`) had a usable page-1 discovery, the cursor moved
back exactly one day per iteration: the final cursor is `cur - n`.  Deeper
data pages are unconstrained — a non-fatal page failure is dropped by the
pager, and an authorization failure would have made the run raise instead of
returning ok. -/
theorem loopSteps_cursor (oracle : Int → Nat → Nat → Resp Page)
    (isMovie : Bool) :
    ∀ (n : Nat) (cur : Int) (ids : Finset Nat) (c2 : Int) (ids2 : Finset Nat),
      (∀ d : Int, cur - n + 1 ≤ d → d ≤ cur → discoveryUsable oracle d) →
      (loopSteps oracle isMovie n cur ids).1 = Except.ok (c2, ids2) →
      c2 = cur - n := by
  intro n
  induction n with
  | zero =>
    intro cur ids c2 ids2 _ h
    have hp := Except.ok.inj h
    have hc : cur = c2 := congrArg Prod.fst hp
    rw [← hc]
    norm_num
  | succ n ih =>
    intro cur ids c2 ids2 husable h
    obtain ⟨pg, hpg, htp⟩ := husable cur (by push_cast; omega) (le_refl cur)
    obtain ⟨tp, htp2⟩ := Option.isSome_iff_exists.mp htp
    have hds := dayStep_eq_of_discovery oracle isMovie cur pg tp hpg htp2
    rcases hd2 : fetchPagesM oracle cur 1 (min tp 500) with ⟨r2, l2⟩
    rw [hd2] at hds
    cases r2 with
    | error s =>
      have hds2 : dayStep oracle isMovie cur =
          (Except.error (DiffErr.auth s), [((cur : Int), (1 : Nat))] ++ l2) := hds
      rw [loopSteps_step_error oracle isMovie n cur ids (DiffErr.auth s)
        ([((cur : Int), (1 : Nat))] ++ l2) hds2] at h
      simp at h
    | ok pgs =>
      have hds2 : dayStep oracle isMovie cur =
          (Except.ok (some (extractIds isMovie pgs)),
            [((cur : Int), (1 : Nat))] ++ l2) := hds
      rw [loopSteps_step_day oracle isMovie n cur ids (extractIds isMovie pgs)
        ([((cur : Int), (1 : Nat))] ++ l2) hds2] at h
      have hrange : ∀ d : Int, cur - 1 - n + 1 ≤ d → d ≤ cur - 1 →
          discoveryUsable oracle d := by
        intro d hd1 hd2b
        refine husable d ?_ (by omega)
        push_cast at hd1 ⊢
        omega
      have hc := ih (cur - 1) (ids ∪ extractIds isMovie pgs) c2 ids2 hrange h
      rw [hc]
      push_cast
      ring

theorem fetchChangedIds_movie_fst (oracle : Int → Nat → Nat → Resp Page)
    (days : Nat) (startDate : Int) :
    (fetchChangedIds oracle "movie" days startDate).1 =
      ((loopSteps oracle true days startDate ∅).1).map
        (fun p => (p.2, p.1 + 1)) := by
  unfold fetchChangedIds
  rw [if_pos (Or.inl rfl)]
  rfl

theorem runOk_extract (oracle : Int → Nat → Nat → Resp Page) (days : Nat)
    (startDate : Int) (s : Finset Nat) (e : Int) (l : List (Int × Nat))
    (h : fetchChangedIds oracle "movie" days startDate = (Except.ok (s, e), l)) :
    (loopSteps oracle true days startDate ∅).1 = Except.ok (e - 1, s) := by
  have h1 := congrArg Prod.fst h
  rw [fetchChangedIds_movie_fst] at h1
  cases hL : (loopSteps oracle true days startDate ∅).1 with
  | error er =>
    rw [hL] at h1
    simp [Except.map] at h1
  | ok p =>
    rw [hL] at h1
    have hp := Except.ok.inj h1
    have hs : p.2 = s := congrArg Prod.fst hp
    have he : p.1 + 1 = e := congrArg Prod.snd hp
    have hep : (e - 1 : Int) = p.1 := by
      rw [← he]
      ring
    rw [hep, ← hs]

/-- C8 counterexample: with responses held fixed at a page dict lacking
'total_pages', both fetch_changed_ids("movie", days=1) and days=3 return the
earliest date startDate + 1 (the cursor is never decremented on the failure
path), so the earliest covered date for days=3 is NOT exactly 2 calendar days
before the one for days=1.  The superset half of the claim still holds here
(∅ ⊆ ∅). -/
theorem c8_counterexample :
    fetchChangedIds (fun _ _ _ => Resp.ok ⟨none, []⟩) "movie" 1 100 =
      (Except.ok (∅, 101), [(100, 1)]) ∧
    fetchChangedIds (fun _ _ _ => Resp.ok ⟨none, []⟩) "movie" 3 100 =
      (Except.ok (∅, 101), [(100, 1), (100, 1), (100, 1)]) ∧
    ¬((101 : Int) = 101 - 2) := by
  exact ⟨rfl, rfl, by decide⟩

/-- C8: with the remote responses held fixed, the id set returned by
fetch_changed_ids("movie") is monotonically non-decreasing in `days` (in
particular days=3 yields a superset of days=1), and — provided every queried
day's page-1 discovery call succeeds with a usable total-page count (the
deeper data pages of a day are unconstrained: non-fatal failures there are
silently dropped by the pager) — the earliest covered date for days=1 is the
start date and the one for days=3 is exactly 2 calendar days earlier.
(Without the discovery proviso the earliest-date gap can collapse, because a
day whose discovery fails does not move the cursor; see the C1 analysis and
the counterexample.) -/
theorem c8_monotone_days (oracle : Int → Nat → Nat → Resp Page)
    (startDate : Int) (s1 s3 sm sn : Finset Nat) (e1 e3 em en : Int)
    (l1 l3 lm ln2 : List (Int × Nat)) (m n : Nat) :
    (fetchChangedIds oracle "movie" 1 startDate = (Except.ok (s1, e1), l1) →
      fetchChangedIds oracle "movie" 3 startDate = (Except.ok (s3, e3), l3) →
      s1 ⊆ s3) ∧
    (m ≤ n →
      fetchChangedIds oracle "movie" m startDate = (Except.ok (sm, em), lm) →
      fetchChangedIds oracle "movie" n startDate = (Except.ok (sn, en), ln2) →
      sm ⊆ sn) ∧
    ((∀ d : Int, startDate - 2 ≤ d → d ≤ startDate → discoveryUsable oracle d) →
      fetchChangedIds oracle "movie" 1 startDate = (Except.ok (s1, e1), l1) →
      fetchChangedIds oracle "movie" 3 startDate = (Except.ok (s3, e3), l3) →
      e1 = startDate ∧ e3 = e1 - 2) := by
  have hgen : ∀ (m2 n2 : Nat) (sm2 sn2 : Finset Nat) (em2 en2 : Int)
      (lm2 ln3 : List (Int × Nat)), m2 ≤ n2 →
      fetchChangedIds oracle "movie" m2 startDate = (Except.ok (sm2, em2), lm2) →
      fetchChangedIds oracle "movie" n2 startDate = (Except.ok (sn2, en2), ln3) →
      sm2 ⊆ sn2 := by
    intro m2 n2 sm2 sn2 em2 en2 lm2 ln3 hmn hm hn
    have hLm := runOk_extract oracle m2 startDate sm2 em2 lm2 hm
    have hLn := runOk_extract oracle n2 startDate sn2 en2 ln3 hn
    obtain ⟨k, hk⟩ := Nat.exists_eq_add_of_le hmn
    subst hk
    have h2 : (loopSteps oracle true k (em2 - 1) sm2).1 =
        Except.ok (en2 - 1, sn2) := by
      have hadd := loopSteps_add oracle true m2 k startDate ∅
      rw [hLm, hLn] at hadd
      exact hadd.symm
    exact loopSteps_mono oracle true k (em2 - 1) sm2 (en2 - 1) sn2 h2
  refine ⟨fun h1 h3 => hgen 1 3 s1 s3 e1 e3 l1 l3 (by omega) h1 h3,
    fun hmn hm hn => hgen m n sm sn em en lm ln2 hmn hm hn, ?_⟩
  intro husable h1 h3
  have hL1 := runOk_extract oracle 1 startDate s1 e1 l1 h1
  have hL3 := runOk_extract oracle 3 startDate s3 e3 l3 h3
  have hc1 := loopSteps_cursor oracle true 1 startDate ∅ (e1 - 1) s1
    (by
      intro d hd1 hd2
      refine husable d ?_ hd2
      push_cast at hd1
      omega) hL1
  have hc3 := loopSteps_cursor oracle true 3 startDate ∅ (e3 - 1) s3
    (by
      intro d hd1 hd2
      refine husable d ?_ hd2
      push_cast at hd1
      omega) hL3
  push_cast at hc1 hc3
  constructor
  · omega
  · omega

theorem c8_witness :
    (({5} : Finset Nat) ⊆ {5}) ∧ ((1 : Nat) ≤ 3 ∧ ({5} : Finset Nat) ⊆ {5}) ∧
      ((100 : Int) = 100 ∧ (98 : Int) = 100 - 2) :=
  ⟨(c8_monotone_days
      (fun _ p _ => if p = 1 then Resp.ok ⟨some 2, [⟨5, false⟩]⟩
        else Resp.httpError 500) 100
      {5} {5} {5} {5} 100 98 100 98
      [(100, 1), (100, 1), (100, 2)]
      [(100, 1), (100, 1), (100, 2), (99, 1), (99, 1), (99, 2),
        (98, 1), (98, 1), (98, 2)]
      [(100, 1), (100, 1), (100, 2)]
      [(100, 1), (100, 1), (100, 2), (99, 1), (99, 1), (99, 2),
        (98, 1), (98, 1), (98, 2)] 1 3).1
      (by decide) (by decide),
    ⟨by decide,
      (c8_monotone_days
        (fun _ p _ => if p = 1 then Resp.ok ⟨some 2, [⟨5, false⟩]⟩
          else Resp.httpError 500) 100
        {5} {5} {5} {5} 100 98 100 98
        [(100, 1), (100, 1), (100, 2)]
        [(100, 1), (100, 1), (100, 2), (99, 1), (99, 1), (99, 2),
          (98, 1), (98, 1), (98, 2)]
        [(100, 1), (100, 1), (100, 2)]
        [(100, 1), (100, 1), (100, 2), (99, 1), (99, 1), (99, 2),
          (98, 1), (98, 1), (98, 2)] 1 3).2.1
        (by decide) (by decide) (by decide)⟩,
    (c8_monotone_days
      (fun _ p _ => if p = 1 then Resp.ok ⟨some 2, [⟨5, false⟩]⟩
        else Resp.httpError 500) 100
      {5} {5} {5} {5} 100 98 100 98
      [(100, 1), (100, 1), (100, 2)]
      [(100, 1), (100, 1), (100, 2), (99, 1), (99, 1), (99, 2),
        (98, 1), (98, 1), (98, 2)]
      [(100, 1), (100, 1), (100, 2)]
      [(100, 1), (100, 1), (100, 2), (99, 1), (99, 1), (99, 2),
        (98, 1), (98, 1), (98, 2)] 1 3).2.2
      (fun _ _ _ => ⟨⟨some 2, [⟨5, false⟩]⟩, rfl, rfl⟩) (by decide) (by decide)⟩

end ExportLb
